import Mathlib

/-!
# MineSync core — shallow embedding and verification

This file embeds the core services of the MineSync desktop launcher
(`src-tauri/src/services/...`) in Lean and proves properties of them.

Modelling conventions, used throughout:

* Byte strings are `List Nat`; SHA1 is abstracted as an arbitrary function
  `hash : List Nat → String` (the code only ever compares its hex output for
  equality, so every claim below is parametric in the hash function).
* The network is an oracle `net : Nat → Except AppError (List Nat)` indexed by
  a global request counter: the `n`-th GET issued by a run receives `net n`.
  A transport failure, a non-2xx status and a body-read failure are collapsed
  into the error case, exactly as all three abort `try_download` with an error.
* The filesystem is an association list from destination path to contents;
  writes prepend and reads take the first match.
* `download_all` runs its tasks on up to 4 workers; every update to the shared
  `DownloadProgress` snapshot is a commutative increment or append performed
  under a mutex.  The model serialises the tasks in order; the final snapshot
  fields proved about below (counters, membership and length of
  `failed_files`, final `state`) are the same for every interleaving.
* Wall-clock effects (backoff sleeps, timestamps) and log output are dropped.
  Mutex poisoning (which the code surfaces as an error) cannot occur in a
  sequential model and is dropped as well.
-/

set_option autoImplicit false

namespace MineSync

/-- `AppError` (from `errors.rs`, declared outside the snapshot; every use in
the embedded services is either `AppError::Custom(msg)` or a transport error
converted via `From<reqwest::Error>`). -/
inductive AppError where
  | custom (msg : String)
  | network (msg : String)
deriving DecidableEq, Repr

/-- Bytes of a file or response body. -/
abbrev Bytes := List Nat

/-- Filesystem: destination path ↦ contents.  Writes shadow earlier entries. -/
abbrev FileSystem := List (String × Bytes)

/-- Read a file: first (most recent) entry wins. -/
def fsRead (fs : FileSystem) (p : String) : Option Bytes :=
  (fs.find? (fun e => e.1 == p)).map (·.2)

/-- Write a file (`tokio::fs::write`): the new entry shadows older ones. -/
def fsWrite (fs : FileSystem) (p : String) (b : Bytes) : FileSystem :=
  (p, b) :: fs

-- ## Downloader (`services/download.rs`)

/-- `DownloadTask` (download.rs:14-20). `dest` is a path string. -/
structure DownloadTask where
  url : String
  dest : String
  sha1 : Option String
  size : Nat
deriving DecidableEq, Repr

/-- `DownloadState` (download.rs:32-39). -/
inductive DownloadState where
  | idle
  | downloading
  | completed
  | failed (message : String)
deriving DecidableEq, Repr

/-- `DownloadProgress` (download.rs:22-30). -/
structure DownloadProgress where
  total_files : Nat
  completed_files : Nat
  total_bytes : Nat
  downloaded_bytes : Nat
  failed_files : List String
  state : DownloadState
deriving DecidableEq, Repr

/-- Environment a download run executes in: the abstract SHA1 and the network
oracle (request index ↦ body or error). -/
structure DlEnv where
  hash : Bytes → String
  net : Nat → Except AppError Bytes

/-- Mutable state threaded through a download run: the shared progress
snapshot, the filesystem, and the number of GET requests issued so far. -/
structure DlState where
  prog : DownloadProgress
  fs : FileSystem
  requests : Nat

/-- `MAX_RETRIES` (download.rs:9). -/
def MAX_RETRIES : Nat := 3

/-- `compute_sha1` (download.rs:265-268), abstracted: the run's hash function
applied to the body. -/
def compute_sha1 (env : DlEnv) (data : Bytes) : String :=
  env.hash data

/-- `is_file_cached` (download.rs:236-263): the dest exists, its length equals
the declared `size`, `size` is non-zero, and — when a sha1 is declared — the
on-disk bytes hash to it. -/
def is_file_cached (env : DlEnv) (fs : FileSystem) (task : DownloadTask) : Bool :=
  match fsRead fs task.dest with
  | none => false
  | some bytes =>
    if bytes.length != task.size || task.size == 0 then false
    else
      match task.sha1 with
      | some expected => compute_sha1 env bytes == expected
      | none => true

/-- `try_download` (download.rs:179-211): issue one GET (consuming one request
index), require success, verify the declared sha1 against the body, then count
the bytes and write `dest`.  The sha1-mismatch error message is the literal
string built by the code. -/
def try_download (env : DlEnv) (task : DownloadTask) (s : DlState) :
    DlState × Except AppError Unit :=
  let idx := s.requests
  let s := { s with requests := idx + 1 }
  match env.net idx with
  | .error e => (s, .error e)
  | .ok bytes =>
    let write : DlState × Except AppError Unit :=
      ({ s with
          prog := { s.prog with
            downloaded_bytes := s.prog.downloaded_bytes + bytes.length }
          fs := fsWrite s.fs task.dest bytes },
        .ok ())
    match task.sha1 with
    | some expected =>
      if compute_sha1 env bytes == expected then write
      else
        (s, .error (.custom ("SHA1 mismatch for " ++ task.dest ++
          ": expected " ++ expected ++ ", got " ++ compute_sha1 env bytes)))
    | none => write

/-- The retry loop of `download_file` (download.rs:149-170), indexed by the
number of attempts still allowed (`remaining = MAX_RETRIES - attempt + 1`;
`attempt < MAX_RETRIES` in the code is `remaining > 1` here).  On success the
completed counter is bumped; on the final attempt's failure the task's url is
appended to `failed_files` and the error is returned.  The base case is the
unreachable post-loop error (download.rs:172-175). -/
def download_file_loop (env : DlEnv) (task : DownloadTask) :
    Nat → DlState → DlState × Except AppError Unit
  | 0, s =>
    (s, .error (.custom ("Download failed after " ++ toString MAX_RETRIES ++
      " attempts: " ++ task.url)))
  | remaining + 1, s =>
    match try_download env task s with
    | (s, .ok _) =>
      ({ s with prog := { s.prog with
          completed_files := s.prog.completed_files + 1 } }, .ok ())
    | (s, .error e) =>
      if remaining == 0 then
        ({ s with prog := { s.prog with
            failed_files := s.prog.failed_files ++ [task.url] } }, .error e)
      else
        download_file_loop env task remaining s

/-- `download_file` (download.rs:144-176).  Parent-directory creation is
modelled as succeeding (its failure is an IO error outside the model). -/
def download_file (env : DlEnv) (task : DownloadTask) (s : DlState) :
    DlState × Except AppError Unit :=
  download_file_loop env task MAX_RETRIES s

/-- `filter_cached` (download.rs:214-225). -/
def filter_cached (env : DlEnv) (fs : FileSystem) (tasks : List DownloadTask) :
    List DownloadTask :=
  tasks.filter (fun t => !is_file_cached env fs t)

/-- The finalisation block of `download_all` (download.rs:127-136): after the
join, `state` becomes `completed` iff `failed_files` is empty, else
`failed("{n} files failed")`. -/
def download_all_finalize (s1 : DlState) : DlState :=
  if s1.prog.failed_files.isEmpty then
    { s1 with prog := { s1.prog with state := .completed } }
  else
    let msg := toString s1.prog.failed_files.length ++ " files failed"
    { s1 with prog := { s1.prog with state := .failed msg } }

/-- `download_all` (download.rs:75-139): initialise the snapshot, skip cached
tasks, run the rest, then finalise the state.  Crucially, per-task errors from
the joined workers are only logged (download.rs:118-124) and the function
returns `Ok(())` (download.rs:138). -/
def download_all (env : DlEnv) (fs : FileSystem) (tasks : List DownloadTask) :
    DlState × Except AppError Unit :=
  let total_bytes := (tasks.map (·.size)).sum
  let total_files := tasks.length
  let prog0 : DownloadProgress :=
    { total_files := total_files
      completed_files := 0
      total_bytes := total_bytes
      downloaded_bytes := 0
      failed_files := []
      state := .downloading }
  let pending := filter_cached env fs tasks
  let skipped := total_files - pending.length
  let prog1 := if skipped > 0 then { prog0 with completed_files := skipped } else prog0
  let s0 : DlState := { prog := prog1, fs := fs, requests := 0 }
  let s1 := pending.foldl (fun s t => (download_file env t s).1) s0
  (download_all_finalize s1, .ok ())

-- ## Downloader lemmas

/-- Each `try_download` attempt issues exactly one GET request. -/
theorem try_download_requests (env : DlEnv) (t : DownloadTask) (s : DlState) :
    (try_download env t s).1.requests = s.requests + 1 := by
  unfold try_download
  cases h : env.net s.requests with
  | error e => simp [h]
  | ok bytes =>
    cases hs : t.sha1 with
    | none => simp [h, hs]
    | some expected =>
      by_cases hb : (compute_sha1 env bytes == expected) = true
      · simp [h, hs, hb]
      · simp [h, hs, hb]

/-- A failed `try_download` attempt changes nothing but the request counter:
the snapshot and the filesystem are untouched. -/
theorem try_download_error (env : DlEnv) (t : DownloadTask) (s : DlState)
    (e : AppError) (h : (try_download env t s).2 = .error e) :
    (try_download env t s).1.prog = s.prog ∧ (try_download env t s).1.fs = s.fs := by
  unfold try_download at h ⊢
  cases hn : env.net s.requests with
  | error e2 => simp [hn]
  | ok bytes =>
    cases hs : t.sha1 with
    | none => simp [hn, hs] at h
    | some expected =>
      by_cases hb : (compute_sha1 env bytes == expected) = true
      · simp [hn, hs, hb] at h
      · simp [hn, hs, hb]

/-- If the retry loop ultimately fails, it made exactly one GET per allowed
attempt (no early exit for any error kind), appended the task's url to
`failed_files` once, and touched no other snapshot field. -/
theorem download_file_loop_error (env : DlEnv) (t : DownloadTask) :
    ∀ (n : Nat) (s : DlState) (e : AppError), 0 < n →
    (download_file_loop env t n s).2 = .error e →
    (download_file_loop env t n s).1.prog.failed_files
        = s.prog.failed_files ++ [t.url] ∧
    (download_file_loop env t n s).1.requests = s.requests + n ∧
    (download_file_loop env t n s).1.prog.completed_files
        = s.prog.completed_files ∧
    (download_file_loop env t n s).1.prog.downloaded_bytes
        = s.prog.downloaded_bytes := by
  intro n
  induction n with
  | zero => intro s e h; exact absurd h (by omega)
  | succ m ih =>
    intro s e _ herr
    rw [download_file_loop] at herr ⊢
    cases htry : try_download env t s with
    | mk s2 r =>
      have hreq : s2.requests = s.requests + 1 := by
        have := try_download_requests env t s; rw [htry] at this; exact this
      cases r with
      | ok u => simp [htry] at herr
      | error e2 =>
        have hpre : s2.prog = s.prog ∧ s2.fs = s.fs := by
          have h2 : (try_download env t s).2 = .error e2 := by rw [htry]
          have := try_download_error env t s e2 h2
          rw [htry] at this; exact this
        cases m with
        | zero =>
          simp only [htry, show ((0:Nat) == 0) = true from rfl, if_true] at herr ⊢
          refine ⟨?_, ?_, ?_, ?_⟩ <;> simp [hpre.1, hreq]
        | succ k =>
          simp only [htry, show ((k+1:Nat) == 0) = false from rfl, Bool.false_eq_true,
            if_false] at herr ⊢
          have := ih s2 e (Nat.succ_pos k) herr
          refine ⟨?_, ?_, ?_, ?_⟩
          · rw [this.1, hpre.1]
          · rw [this.2.1, hreq]; omega
          · rw [this.2.2.1, hpre.1]
          · rw [this.2.2.2, hpre.1]

/-- C1 (amended), C3 (amended) workhorse: if `download_file` returns an error
then the task failed its final retry; its url was appended to `failed_files`
exactly once, exactly `MAX_RETRIES` GETs were issued (every error kind,
including a SHA1 mismatch, was retried), and no other counter moved. -/
theorem download_file_error (env : DlEnv) (t : DownloadTask) (s : DlState)
    (e : AppError) (h : (download_file env t s).2 = .error e) :
    (download_file env t s).1.prog.failed_files = s.prog.failed_files ++ [t.url] ∧
    (download_file env t s).1.requests = s.requests + MAX_RETRIES := by
  have := download_file_loop_error env t MAX_RETRIES s e (by decide) h
  exact ⟨this.1, this.2.1⟩

/-- The finalisation step keeps `failed_files` and maps it to the final
`state` exactly as download.rs:127-136 does. -/
theorem download_all_finalize_spec (s : DlState) :
    (download_all_finalize s).prog.failed_files = s.prog.failed_files ∧
    ((download_all_finalize s).prog.failed_files = [] →
        (download_all_finalize s).prog.state = .completed) ∧
    ((download_all_finalize s).prog.failed_files ≠ [] →
        (download_all_finalize s).prog.state =
          .failed (toString (download_all_finalize s).prog.failed_files.length
            ++ " files failed")) := by
  by_cases h : s.prog.failed_files.isEmpty
  · have hnil : s.prog.failed_files = [] := List.isEmpty_iff.mp h
    simp [download_all_finalize, h, hnil]
  · have hne : s.prog.failed_files ≠ [] := fun c => h (List.isEmpty_iff.mpr c)
    simp [download_all_finalize, h, hne]

/-- The snapshot `download_all` returns is the finalisation of the joined
state. -/
theorem download_all_as_finalize (env : DlEnv) (fs : FileSystem)
    (tasks : List DownloadTask) :
    ∃ s1, (download_all env fs tasks).1 = download_all_finalize s1 :=
  ⟨_, rfl⟩

-- ## Claim C1

/-- Network oracle that refuses every request. -/
def c1Env : DlEnv :=
  { hash := fun _ => "h", net := fun _ => .error (.network "connection refused") }

def c1Task : DownloadTask :=
  { url := "https://example.com/a.jar", dest := "/inst/mods/a.jar",
    sha1 := none, size := 10 }

/-- C1 counterexample: with a network that refuses every request, the single
task fails after its final retry — its url is in `failed_files` and the final
state is `failed "1 files failed"` — yet `download_all` returns `Ok`, not an
error (the per-task errors are only logged, download.rs:118-124, and the
function ends with `Ok(())`, download.rs:138).  This refutes the claim's
"surfaces an error to its caller" conjunct. -/
theorem download_all_ok_despite_failed_task :
    (download_all c1Env [] [c1Task]).1.prog.failed_files = [c1Task.url] ∧
    (download_all c1Env [] [c1Task]).1.prog.state = .failed "1 files failed" ∧
    (download_all c1Env [] [c1Task]).2 = .ok () :=
  ⟨rfl, rfl, rfl⟩

/-- C1 (amended): if a task still fails after its final retry attempt, its url
is appended to the failed-files list and the final progress state is
`failed("{n} files failed")`; `download_file` returns the error to its caller
(the spawned worker), but `download_all` itself logs worker errors and returns
`Ok` — the failure is surfaced through the progress snapshot, not through
`download_all`'s return value. -/
theorem download_all_failure_reporting (env : DlEnv) (fs : FileSystem)
    (tasks : List DownloadTask) :
    (download_all env fs tasks).2 = .ok () ∧
    (∀ (t : DownloadTask) (s : DlState) (e : AppError),
        (download_file env t s).2 = .error e →
        (download_file env t s).1.prog.failed_files
          = s.prog.failed_files ++ [t.url]) ∧
    ((download_all env fs tasks).1.prog.failed_files ≠ [] →
        (download_all env fs tasks).1.prog.state =
          .failed (toString (download_all env fs tasks).1.prog.failed_files.length
            ++ " files failed")) ∧
    ((download_all env fs tasks).1.prog.failed_files = [] →
        (download_all env fs tasks).1.prog.state = .completed) := by
  obtain ⟨s1, hs⟩ := download_all_as_finalize env fs tasks
  refine ⟨rfl, fun t s e he => (download_file_error env t s e he).1, ?_, ?_⟩
  · rw [hs]; exact (download_all_finalize_spec s1).2.2
  · rw [hs]; exact (download_all_finalize_spec s1).2.1

/-- C1 witness: the amended theorem applied to the concrete failing run. -/
theorem download_all_failure_reporting_witness :
    ((download_all c1Env [] [c1Task]).1.prog.state =
        .failed (toString (download_all c1Env [] [c1Task]).1.prog.failed_files.length
          ++ " files failed")) ∧
    (download_file c1Env c1Task
        { prog := (download_all c1Env [] [c1Task]).1.prog, fs := [], requests := 0 }).1.prog.failed_files
      = (download_all c1Env [] [c1Task]).1.prog.failed_files ++ [c1Task.url] :=
  ⟨(download_all_failure_reporting c1Env [] [c1Task]).2.2.1 (by decide),
   (download_all_failure_reporting c1Env [] [c1Task]).2.1 c1Task
     { prog := (download_all c1Env [] [c1Task]).1.prog, fs := [], requests := 0 }
     (.network "connection refused") rfl⟩

-- ## Claim C3

/-- Server that always answers with the byte `7`, whose hash is `"deadbeef"`,
never the declared `"cafebabe"`. -/
def c3Env : DlEnv :=
  { hash := fun b => if b == [7] then "deadbeef" else "other",
    net := fun _ => .ok [7] }

def c3Task : DownloadTask :=
  { url := "https://example.com/b.jar", dest := "/inst/mods/b.jar",
    sha1 := some "cafebabe", size := 1 }

def c3S0 : DlState :=
  { prog := { total_files := 1, completed_files := 0, total_bytes := 1,
              downloaded_bytes := 0, failed_files := [], state := .downloading },
    fs := [], requests := 0 }

/-- C3 counterexample: the first attempt fails with the SHA1-mismatch error,
yet `download_file` goes on to issue two more GETs (3 requests in total) —
the retry loop (download.rs:149-170) retries every error kind, so an
integrity mismatch IS retried, refuting "without any further retry attempt". -/
theorem sha1_mismatch_triggers_retries :
    (try_download c3Env c3Task c3S0).2 =
      .error (.custom
        "SHA1 mismatch for /inst/mods/b.jar: expected cafebabe, got deadbeef") ∧
    (download_file c3Env c3Task c3S0).1.requests = 3 ∧
    (download_file c3Env c3Task c3S0).1.prog.failed_files = [c3Task.url] :=
  ⟨rfl, rfl, rfl⟩

/-- C3 (amended): an attempt whose body hashes differently from the declared
sha1 fails that attempt with the SHA1-mismatch error, but the mismatch is
retried exactly like a transient error: whenever `download_file` ultimately
fails — for any error kind — it has issued exactly `MAX_RETRIES` GETs, and
only then is the task's url appended to the failed list. -/
theorem sha1_mismatch_retried_like_other_failures :
    (∀ (env : DlEnv) (t : DownloadTask) (s : DlState) (bytes : Bytes)
        (expected : String),
        env.net s.requests = .ok bytes → t.sha1 = some expected →
        env.hash bytes ≠ expected →
        (try_download env t s).2 = .error (.custom ("SHA1 mismatch for " ++ t.dest
          ++ ": expected " ++ expected ++ ", got " ++ compute_sha1 env bytes))) ∧
    (∀ (env : DlEnv) (t : DownloadTask) (s : DlState) (e : AppError),
        (download_file env t s).2 = .error e →
        (download_file env t s).1.requests = s.requests + MAX_RETRIES ∧
        (download_file env t s).1.prog.failed_files
          = s.prog.failed_files ++ [t.url]) := by
  constructor
  · intro env t s bytes expected hn hs hne
    unfold try_download
    dsimp only
    rw [hn]
    dsimp only
    rw [hs]
    have hb : (compute_sha1 env bytes == expected) = false := by
      simp [compute_sha1, hne]
    simp [hb]
  · intro env t s e he
    exact ⟨(download_file_error env t s e he).2, (download_file_error env t s e he).1⟩

/-- C3 witness: the amended theorem applied to the concrete mismatching run. -/
theorem sha1_mismatch_retried_witness :
    (try_download c3Env c3Task c3S0).2 = .error (.custom ("SHA1 mismatch for "
      ++ c3Task.dest ++ ": expected " ++ "cafebabe" ++ ", got "
      ++ compute_sha1 c3Env [7])) ∧
    (download_file c3Env c3Task c3S0).1.requests = c3S0.requests + MAX_RETRIES :=
  ⟨sha1_mismatch_retried_like_other_failures.1 c3Env c3Task c3S0 [7] "cafebabe"
      rfl rfl (by decide),
   (sha1_mismatch_retried_like_other_failures.2 c3Env c3Task c3S0
      (.custom "SHA1 mismatch for /inst/mods/b.jar: expected cafebabe, got deadbeef")
      rfl).1⟩

-- ## Claim C7

/-- C7 counterexample input: a declared size of 0 with a matching empty file
on disk.  `is_file_cached` rejects `size == 0` (download.rs:242), so the task
is re-downloaded and one network request is issued. -/
def c7Env : DlEnv := { hash := fun _ => "h", net := fun _ => .ok [] }

def c7Task : DownloadTask :=
  { url := "https://example.com/empty.bin", dest := "/inst/empty.bin",
    sha1 := none, size := 0 }

def c7Fs : FileSystem := [("/inst/empty.bin", [])]

/-- C7 counterexample: the task's dest exists with on-disk length equal to the
declared size (both 0) and no sha1 declared, yet `download_all` issues one
network request instead of zero — the cache filter also requires `size > 0`. -/
theorem zero_size_cached_file_redownloaded :
    fsRead c7Fs c7Task.dest = some [] ∧
    ([] : Bytes).length = c7Task.size ∧
    c7Task.sha1 = none ∧
    (download_all c7Env c7Fs [c7Task]).1.requests = 1 :=
  ⟨rfl, rfl, rfl, rfl⟩

/-- C7 (amended with the cache filter's `size > 0` requirement): if every
task's dest already exists with a positive declared size, matching on-disk
length and (when declared) matching sha1, then `download_all` issues zero
network requests and finishes with `completed_files = |T|`,
`downloaded_bytes = 0` and `state = completed`. -/
theorem download_all_cache_correct (env : DlEnv) (fs : FileSystem)
    (tasks : List DownloadTask)
    (h : ∀ t ∈ tasks, 0 < t.size ∧ ∃ b, fsRead fs t.dest = some b ∧
        b.length = t.size ∧ ∀ hx, t.sha1 = some hx → env.hash b = hx) :
    (download_all env fs tasks).1.requests = 0 ∧
    (download_all env fs tasks).1.prog.completed_files = tasks.length ∧
    (download_all env fs tasks).1.prog.downloaded_bytes = 0 ∧
    (download_all env fs tasks).1.prog.state = .completed ∧
    (download_all env fs tasks).1.prog.failed_files = [] := by
  have hc : ∀ t ∈ tasks, is_file_cached env fs t = true := by
    intro t ht
    obtain ⟨hpos, b, hread, hlen, hsha⟩ := h t ht
    unfold is_file_cached
    rw [hread]
    have h1 : (b.length != t.size) = false := by simp [hlen]
    have h2 : (t.size == 0) = false := by simp; omega
    dsimp only
    simp only [h1, h2, Bool.or_self, Bool.false_eq_true, if_false]
    cases hs : t.sha1 with
    | none => simp
    | some ex => simp [compute_sha1, hsha ex hs]
  have hp : filter_cached env fs tasks = [] := by
    unfold filter_cached
    exact List.filter_eq_nil_iff.mpr (by intro a ha; simp [hc a ha])
  unfold download_all
  dsimp only
  rw [hp]
  cases tasks with
  | nil => simp [download_all_finalize]
  | cons a l => simp [download_all_finalize]

/-- Cached-run witness input: dest present with 2 bytes hashing to the
declared sha1, network refusing (it must never be consulted). -/
def c7wEnv : DlEnv :=
  { hash := fun b => if b == [1, 2] then "aa" else "bb",
    net := fun _ => .error (.network "no request expected") }

def c7wTask : DownloadTask :=
  { url := "https://example.com/c.jar", dest := "/inst/mods/c.jar",
    sha1 := some "aa", size := 2 }

def c7wFs : FileSystem := [("/inst/mods/c.jar", [1, 2])]

/-- C7 witness: the amended theorem applied to a concrete fully-cached run. -/
theorem download_all_cache_correct_witness :
    (download_all c7wEnv c7wFs [c7wTask]).1.requests = 0 ∧
    (download_all c7wEnv c7wFs [c7wTask]).1.prog.completed_files
      = [c7wTask].length ∧
    (download_all c7wEnv c7wFs [c7wTask]).1.prog.downloaded_bytes = 0 ∧
    (download_all c7wEnv c7wFs [c7wTask]).1.prog.state = .completed ∧
    (download_all c7wEnv c7wFs [c7wTask]).1.prog.failed_files = [] :=
  download_all_cache_correct c7wEnv c7wFs [c7wTask] (by
    intro t ht
    rw [List.mem_singleton] at ht
    subst ht
    exact ⟨by decide, [1, 2], rfl, rfl, fun hx hh => by
      injection hh with hh2⟩)

-- ## Sync manifests (`models/sync.rs` as used by `services/sync_protocol`)

/-- `SyncModEntry`, with the fields the sync-protocol module reads
(`mod_name`, `mod_version`, `file_name`, `file_hash`, `source`,
`source_project_id`, `source_version_id`); this matches the data model of the
spec, §3.  `mod_name` is the diff key. -/
structure SyncModEntry where
  mod_name : String
  mod_version : String
  file_name : String
  file_hash : Option String
  source : String
  source_project_id : Option String
  source_version_id : Option String
deriving DecidableEq, Repr

/-- `SyncManifest`, with the fields the sync-protocol module reads.
`created_at` (a wall-clock timestamp) is dropped. -/
structure SyncManifest where
  id : String
  name : String
  instance_id : String
  minecraft_version : String
  loader_type : Option String
  loader_version : Option String
  mods : List SyncModEntry
  manifest_version : Nat
deriving DecidableEq, Repr

-- ## Manifest diff engine (`services/sync_protocol/manifest_diff.rs`)

/-- `ModUpdate` (manifest_diff.rs:20-30). -/
structure ModUpdate where
  mod_name : String
  local_version : String
  remote_version : String
  source : String
  source_project_id : Option String
  source_version_id : Option String
  remote_file_name : String
  remote_hash : Option String
deriving DecidableEq, Repr

/-- `VersionMismatch` (manifest_diff.rs:32-38). -/
structure VersionMismatch where
  local_mc_version : String
  remote_mc_version : String
  local_loader : Option String
  remote_loader : Option String
deriving DecidableEq, Repr

/-- `ManifestDiff` (manifest_diff.rs:8-18). -/
structure ManifestDiff where
  to_add : List SyncModEntry
  to_remove : List SyncModEntry
  to_update : List ModUpdate
  version_mismatch : Option VersionMismatch
deriving DecidableEq, Repr

/-- The `HashMap<&str, &SyncModEntry>` each manifest is indexed into
(manifest_diff.rs:73-83): `collect` lets a later entry with the same
`mod_name` overwrite an earlier one.  A Rust `HashMap`'s iteration order is
unspecified; the model iterates in order of last occurrence.  Every property
proved below is either order-insensitive (memberships, multisets) or assumes
distinct names (under which this is the identity). -/
def nameIndex (ms : List SyncModEntry) : List SyncModEntry :=
  ms.foldl (fun acc m => acc.filter (fun x => x.mod_name ≠ m.mod_name) ++ [m]) []

/-- `HashMap::get` on the name index. -/
def idxGet (idx : List SyncModEntry) (n : String) : Option SyncModEntry :=
  idx.find? (fun m => m.mod_name == n)

/-- `HashMap::contains_key` on the name index. -/
def idxContains (idx : List SyncModEntry) (n : String) : Bool :=
  (idxGet idx n).isSome

/-- `find_additions` (manifest_diff.rs:114-123): remote map entries whose name
is not a key of the local map. -/
def find_additions (localIdx remoteIdx : List SyncModEntry) : List SyncModEntry :=
  remoteIdx.filter (fun m => !idxContains localIdx m.mod_name)

/-- `find_removals` (manifest_diff.rs:125-135): local map entries whose name
is not a key of the remote map. -/
def find_removals (localIdx remoteIdx : List SyncModEntry) : List SyncModEntry :=
  localIdx.filter (fun m => !idxContains remoteIdx m.mod_name)

/-- `mod_needs_update` (manifest_diff.rs:165-173): compare hashes when both
are present, else fall back to the version strings. -/
def mod_needs_update (l r : SyncModEntry) : Bool :=
  match l.file_hash, r.file_hash with
  | some lh, some rh => lh != rh
  | _, _ => l.mod_version != r.mod_version

/-- The `ModUpdate` built for a name present in both maps
(manifest_diff.rs:147-156). -/
def mkUpdate (lm rm : SyncModEntry) : ModUpdate :=
  { mod_name := lm.mod_name
    local_version := lm.mod_version
    remote_version := rm.mod_version
    source := rm.source
    source_project_id := rm.source_project_id
    source_version_id := rm.source_version_id
    remote_file_name := rm.file_name
    remote_hash := rm.file_hash }

/-- `find_updates` (manifest_diff.rs:138-162): iterate the local map; for each
name also in the remote map, emit a `ModUpdate` iff `mod_needs_update`. -/
def find_updates (localIdx remoteIdx : List SyncModEntry) : List ModUpdate :=
  localIdx.filterMap (fun lm =>
    match idxGet remoteIdx lm.mod_name with
    | none => none
    | some rm => if mod_needs_update lm rm then some (mkUpdate lm rm) else none)

/-- `detect_version_mismatch` (manifest_diff.rs:97-111). -/
def detect_version_mismatch (l r : SyncManifest) : Option VersionMismatch :=
  if l.minecraft_version != r.minecraft_version || l.loader_type != r.loader_type then
    some { local_mc_version := l.minecraft_version
           remote_mc_version := r.minecraft_version
           local_loader := l.loader_type
           remote_loader := r.loader_type }
  else
    none

/-- `compute_diff` (manifest_diff.rs:70-95). -/
def compute_diff (l r : SyncManifest) : ManifestDiff :=
  { to_add := find_additions (nameIndex l.mods) (nameIndex r.mods)
    to_remove := find_removals (nameIndex l.mods) (nameIndex r.mods)
    to_update := find_updates (nameIndex l.mods) (nameIndex r.mods)
    version_mismatch := detect_version_mismatch l r }

/-- Folding the index builder over names that are already distinct changes
nothing: each step's filter is the identity. -/
theorem nameIndex_go_of_nodup :
    ∀ (ms acc : List SyncModEntry),
    (((acc ++ ms).map (·.mod_name)).Nodup) →
    ms.foldl (fun acc m => acc.filter (fun x => x.mod_name ≠ m.mod_name) ++ [m]) acc
      = acc ++ ms := by
  intro ms
  induction ms with
  | nil => intro acc _; simp
  | cons m ms ih =>
    intro acc h
    have hnotin : m.mod_name ∉ acc.map (·.mod_name) := by
      intro hmem
      rw [List.map_append, List.nodup_append] at h
      exact h.2.2 hmem (by simp)
    have hfil : acc.filter (fun x => x.mod_name ≠ m.mod_name) = acc := by
      apply List.filter_eq_self.mpr
      intro x hx
      simp only [decide_eq_true_eq]
      intro he
      exact hnotin (he ▸ List.mem_map_of_mem (·.mod_name) hx)
    rw [List.foldl_cons, hfil]
    have h2 : (((acc ++ [m]) ++ ms).map (·.mod_name)).Nodup := by
      rw [List.append_assoc]; simpa using h
    rw [ih (acc ++ [m]) h2, List.append_assoc]
    rfl

/-- With distinct `mod_name`s the hash-map index is the entry list itself. -/
theorem nameIndex_of_nodup (ms : List SyncModEntry)
    (h : (ms.map (·.mod_name)).Nodup) : nameIndex ms = ms := by
  have := nameIndex_go_of_nodup ms [] (by simpa using h)
  simpa [nameIndex] using this

/-- `contains_key` on an index answers name membership of the indexed list. -/
theorem idxContains_iff (ms : List SyncModEntry) (n : String) :
    idxContains ms n = true ↔ n ∈ ms.map (·.mod_name) := by
  simp [idxContains, idxGet, List.find?_isSome, List.mem_map]

-- ## Claim C4

def c4e1 : SyncModEntry :=
  { mod_name := "x", mod_version := "1.0.0", file_name := "x-1.0.0.jar",
    file_hash := none, source := "modrinth", source_project_id := none,
    source_version_id := none }

def c4e2 : SyncModEntry :=
  { c4e1 with mod_version := "2.0.0", file_name := "x-2.0.0.jar" }

def c4L : SyncManifest :=
  { id := "L", name := "Local", instance_id := "inst",
    minecraft_version := "1.21.1", loader_type := some "fabric",
    loader_version := some "0.16.0", mods := [], manifest_version := 1 }

def c4R : SyncManifest :=
  { c4L with id := "R", name := "Remote", mods := [c4e1, c4e2] }

/-- C4 counterexample: when the remote manifest carries two entries with the
same `mod_name` (both absent from local), the `HashMap` index built by
`compute_diff` keeps only the last one, so `to_add` has one entry where the
claim's "exactly the remote entries whose mod_name is absent from local" has
two — the claim fails for manifests with duplicate names. -/
theorem compute_diff_collapses_duplicate_names :
    (compute_diff c4L c4R).to_add = [c4e2] ∧
    c4R.mods.filter (fun m => m.mod_name ∉ c4L.mods.map (·.mod_name))
      = [c4e1, c4e2] ∧
    (compute_diff c4L c4R).to_add.length = 1 := by
  refine ⟨?_, ?_, rfl⟩ <;> rfl

/-- C4 (amended with the data model's "`mod_name` is the diff key" invariant,
i.e. names are distinct within each manifest — duplicates are collapsed
last-wins by the `HashMap` index): `to_add` is exactly the remote entries
whose name is absent from local, `to_remove` exactly the local entries whose
name is absent from remote, an update entry is emitted for a shared name iff
both sides have hashes and they differ or not both have hashes and the
versions differ, and `version_mismatch` is `Some` iff `minecraft_version` or
`loader_type` differ. -/
theorem compute_diff_correct (L R : SyncManifest)
    (hL : (L.mods.map (·.mod_name)).Nodup)
    (hR : (R.mods.map (·.mod_name)).Nodup) :
    (compute_diff L R).to_add
      = R.mods.filter (fun m => m.mod_name ∉ L.mods.map (·.mod_name)) ∧
    (compute_diff L R).to_remove
      = L.mods.filter (fun m => m.mod_name ∉ R.mods.map (·.mod_name)) ∧
    (compute_diff L R).to_update
      = L.mods.filterMap (fun lm =>
          match R.mods.find? (fun rm => rm.mod_name == lm.mod_name) with
          | none => none
          | some rm => if mod_needs_update lm rm then some (mkUpdate lm rm) else none) ∧
    ((compute_diff L R).version_mismatch.isSome ↔
      (L.minecraft_version ≠ R.minecraft_version ∨ L.loader_type ≠ R.loader_type)) := by
  have hcont : ∀ (ms : List SyncModEntry) (n : String),
      (!idxContains ms n) = decide (n ∉ ms.map (·.mod_name)) := by
    intro ms n
    by_cases h : n ∈ ms.map (·.mod_name)
    · simp [idxContains_iff, h]
    · have hfalse : idxContains ms n = false := by
        cases hct : idxContains ms n
        · rfl
        · exact absurd ((idxContains_iff ms n).mp hct) h
      simp [hfalse, h]
  refine ⟨?_, ?_, ?_, ?_⟩
  · show find_additions (nameIndex L.mods) (nameIndex R.mods) = _
    rw [nameIndex_of_nodup L.mods hL, nameIndex_of_nodup R.mods hR]
    unfold find_additions
    exact List.filter_congr (fun m _ => hcont L.mods m.mod_name)
  · show find_removals (nameIndex L.mods) (nameIndex R.mods) = _
    rw [nameIndex_of_nodup L.mods hL, nameIndex_of_nodup R.mods hR]
    unfold find_removals
    exact List.filter_congr (fun m _ => hcont R.mods m.mod_name)
  · show find_updates (nameIndex L.mods) (nameIndex R.mods) = _
    rw [nameIndex_of_nodup L.mods hL, nameIndex_of_nodup R.mods hR]
    rfl
  · show (detect_version_mismatch L R).isSome ↔ _
    unfold detect_version_mismatch
    by_cases hmc : L.minecraft_version = R.minecraft_version <;>
      by_cases hld : L.loader_type = R.loader_type <;>
        simp [hmc, hld]

def mkEntry (n v : String) : SyncModEntry :=
  { mod_name := n, mod_version := v, file_name := n ++ "-" ++ v ++ ".jar",
    file_hash := none, source := "modrinth", source_project_id := none,
    source_version_id := none }

def c4wL : SyncManifest :=
  { id := "L", name := "Local", instance_id := "inst",
    minecraft_version := "1.21.1", loader_type := some "fabric",
    loader_version := some "0.16.0",
    mods := [mkEntry "sodium" "0.5.7", mkEntry "iris" "1.6.0", mkEntry "old" "1.0.0"],
    manifest_version := 1 }

def c4wR : SyncManifest :=
  { c4wL with
    id := "R"
    name := "Remote"
    mods := [mkEntry "sodium" "0.5.8", mkEntry "iris" "1.6.0", mkEntry "lithium" "0.12.0"] }

/-- C4 witness: the amended theorem at the spec's concrete diff scenario
(local sodium/iris/old against remote sodium/iris/lithium). -/
theorem compute_diff_correct_witness :
    (compute_diff c4wL c4wR).to_add
      = c4wR.mods.filter (fun m => m.mod_name ∉ c4wL.mods.map (·.mod_name)) ∧
    (compute_diff c4wL c4wR).to_remove
      = c4wL.mods.filter (fun m => m.mod_name ∉ c4wR.mods.map (·.mod_name)) ∧
    (compute_diff c4wL c4wR).to_update
      = c4wL.mods.filterMap (fun lm =>
          match c4wR.mods.find? (fun rm => rm.mod_name == lm.mod_name) with
          | none => none
          | some rm => if mod_needs_update lm rm then some (mkUpdate lm rm) else none) ∧
    ((compute_diff c4wL c4wR).version_mismatch.isSome ↔
      (c4wL.minecraft_version ≠ c4wR.minecraft_version ∨
        c4wL.loader_type ≠ c4wR.loader_type)) :=
  compute_diff_correct c4wL c4wR (by decide) (by decide)

-- ## Claim C9

/-- C9: for every pair of manifests the multiset of names in
`compute_diff(L,R).to_add` equals the multiset of names in
`compute_diff(R,L).to_remove` — both are the remote-side index filtered by
absence from the local-side index, so this holds with no assumption on
duplicate names (and regardless of the `HashMap` iteration order, which the
multiset view quotients away). -/
theorem diff_add_remove_symmetry (L R : SyncManifest) :
    (((compute_diff L R).to_add.map (·.mod_name) : List String) : Multiset String)
      = (((compute_diff R L).to_remove.map (·.mod_name) : List String) : Multiset String) :=
  rfl

-- ## Sync controller (`services/sync_protocol/mod.rs`)

/-- `PendingSyncStatus` (sync_protocol/mod.rs:29-40). -/
inductive PendingSyncStatus where
  | awaitingConfirmation
  | syncing
  | completed
  | rejected
deriving DecidableEq, Repr

/-- The `{:?}` (derived `Debug`) rendering of a status, used in
`confirm_sync`'s error message. -/
def statusDebug : PendingSyncStatus → String
  | .awaitingConfirmation => "AwaitingConfirmation"
  | .syncing => "Syncing"
  | .completed => "Completed"
  | .rejected => "Rejected"

/-- `PendingSync` (sync_protocol/mod.rs:19-27). -/
structure PendingSync where
  session_id : String
  remote_peer_id : String
  local_manifest : SyncManifest
  remote_manifest : SyncManifest
  diff : ManifestDiff
  status : PendingSyncStatus
deriving DecidableEq, Repr

/-- The `HashMap<SessionId, PendingSync>` held behind the service's mutex,
modelled as an association list (keys are unique in practice: they are
freshly generated UUIDs; none of the claims depends on it). -/
abbrev SyncMap := List (String × PendingSync)

/-- `guard.get_mut(session_id)` — lookup by session id. -/
def syncLookup (m : SyncMap) (sid : String) : Option PendingSync :=
  (m.find? (fun e => e.1 == sid)).map (·.2)

/-- Writing through the `get_mut` reference: replace the entry in place. -/
def syncUpdate (m : SyncMap) (sid : String) (p : PendingSync) : SyncMap :=
  m.map (fun e => if e.1 == sid then (e.1, p) else e)

/-- `confirm_sync` (sync_protocol/mod.rs:100-119): requires the session to
exist and to be `AwaitingConfirmation`; transitions it to `Syncing` and
returns its diff.  Any other status is an error and the map is untouched. -/
def confirm_sync (m : SyncMap) (sid : String) :
    SyncMap × Except AppError ManifestDiff :=
  match syncLookup m sid with
  | none => (m, .error (.custom ("No pending sync found: " ++ sid)))
  | some pending =>
    if pending.status != .awaitingConfirmation then
      (m, .error (.custom ("Sync " ++ sid ++ " is not awaiting confirmation, status: "
        ++ statusDebug pending.status)))
    else
      (syncUpdate m sid { pending with status := .syncing }, .ok pending.diff)

/-- `reject_sync` (sync_protocol/mod.rs:122-134): requires the session to
exist, then sets `Rejected` unconditionally — there is no status check. -/
def reject_sync (m : SyncMap) (sid : String) : SyncMap × Except AppError Unit :=
  match syncLookup m sid with
  | none => (m, .error (.custom ("No pending sync found: " ++ sid)))
  | some pending =>
    (syncUpdate m sid { pending with status := .rejected }, .ok ())

/-- Updating the entry a successful lookup found is observed by the next
lookup. -/
theorem syncLookup_update (m : SyncMap) (sid : String) (p pnew : PendingSync)
    (h : syncLookup m sid = some p) :
    syncLookup (syncUpdate m sid pnew) sid = some pnew := by
  induction m with
  | nil => simp [syncLookup] at h
  | cons e rest ih =>
    by_cases he : e.1 = sid
    · subst he
      simp [syncLookup, syncUpdate]
    · have heb : (e.1 == sid) = false := by simpa using he
      simp only [syncLookup, syncUpdate, List.map_cons] at h ih ⊢
      rw [List.find?_cons_of_neg _ (by simp [heb])] at h
      rw [List.find?_cons_of_neg _ (by simp [heb])]
      exact ih h

-- ## Claim C6

def c6Pending : PendingSync :=
  { session_id := "s1", remote_peer_id := "peer-a", local_manifest := c4L,
    remote_manifest := c4L, diff := compute_diff c4L c4L, status := .completed }

def c6Map : SyncMap := [("s1", c6Pending)]

/-- C6 counterexample: `reject_sync` on a session whose status is the
terminal `Completed` returns `Ok` and overwrites the status with `Rejected` —
it performs no status check (sync_protocol/mod.rs:122-134), refuting the
claim's "reject_sync on a terminal status is an error". -/
theorem reject_sync_overwrites_completed :
    c6Pending.status = .completed ∧
    (reject_sync c6Map "s1").2 = .ok () ∧
    (syncLookup (reject_sync c6Map "s1").1 "s1").map (·.status) = some .rejected :=
  ⟨rfl, rfl, rfl⟩

/-- C6 (amended): only `confirm_sync` guards the transition — on a session
that exists but is not `AwaitingConfirmation` it returns an error and leaves
the map unchanged, and on an awaiting session it moves it to `Syncing` and
returns the diff; `reject_sync`, however, sets `Rejected` from ANY status,
terminal ones included, and returns `Ok`. -/
theorem sync_status_transitions (m : SyncMap) (sid : String) (p : PendingSync)
    (h : syncLookup m sid = some p) :
    (p.status ≠ .awaitingConfirmation →
        (confirm_sync m sid).2 = .error (.custom ("Sync " ++ sid ++
          " is not awaiting confirmation, status: " ++ statusDebug p.status)) ∧
        (confirm_sync m sid).1 = m) ∧
    (p.status = .awaitingConfirmation →
        (confirm_sync m sid).2 = .ok p.diff ∧
        syncLookup (confirm_sync m sid).1 sid
          = some { p with status := .syncing }) ∧
    ((reject_sync m sid).2 = .ok () ∧
      syncLookup (reject_sync m sid).1 sid = some { p with status := .rejected }) := by
  refine ⟨?_, ?_, ?_⟩
  · intro hne
    have hb : (p.status != .awaitingConfirmation) = true := by
      simp [bne_iff_ne, hne]
    unfold confirm_sync
    rw [h]
    dsimp only
    rw [if_pos hb]
    exact ⟨rfl, rfl⟩
  · intro heq
    have hb : (p.status != .awaitingConfirmation) = false := by
      simp [heq]
    unfold confirm_sync
    rw [h]
    dsimp only
    rw [if_neg (by simp [hb])]
    exact ⟨rfl, syncLookup_update m sid p _ h⟩
  · unfold reject_sync
    rw [h]
    dsimp only
    exact ⟨rfl, syncLookup_update m sid p _ h⟩

def c6wPending : PendingSync :=
  { c6Pending with session_id := "s2", status := .awaitingConfirmation }

def c6wMap : SyncMap := [("s2", c6wPending)]

/-- C6 witness: the amended theorem applied to an awaiting session (confirm
succeeds) and to a completed session (confirm errors, reject overwrites). -/
theorem sync_status_transitions_witness :
    ((confirm_sync c6wMap "s2").2 = .ok c6wPending.diff ∧
      syncLookup (confirm_sync c6wMap "s2").1 "s2"
        = some { c6wPending with status := .syncing }) ∧
    ((confirm_sync c6Map "s1").2 = .error (.custom ("Sync " ++ "s1" ++
        " is not awaiting confirmation, status: " ++ statusDebug c6Pending.status)) ∧
      (confirm_sync c6Map "s1").1 = c6Map) ∧
    ((reject_sync c6Map "s1").2 = .ok () ∧
      syncLookup (reject_sync c6Map "s1").1 "s1"
        = some { c6Pending with status := .rejected }) :=
  ⟨(sync_status_transitions c6wMap "s2" c6wPending rfl).2.1 rfl,
   (sync_status_transitions c6Map "s1" c6Pending rfl).1 (by decide),
   (sync_status_transitions c6Map "s1" c6Pending rfl).2.2⟩

-- ## Path safety (`services/install.rs`, `safe_relative_path`, install.rs:627-652)

/-- Split a character list on `/`, keeping empty segments (they are filtered
away afterwards, as Rust's `Path::components` drops empty segments). -/
def splitOnSlash (cs : List Char) : List String :=
  match cs with
  | [] => [""]
  | c :: rest =>
    let r := splitOnSlash rest
    if c = '/' then "" :: r
    else
      match r with
      | [] => [String.mk [c]]
      | s :: ss => String.mk (c :: s.data) :: ss

/-- `Path::has_root` on Unix: the path begins with `/`. -/
def hasRoot (raw : String) : Bool :=
  match raw.data with
  | c :: _ => c = '/'
  | [] => false

/-- The non-empty segments of the path — Rust's `Path::components` on Unix
modulo `.`/`..` classification: `.` becomes `CurDir` (which
`safe_relative_path` skips) and `..` becomes `ParentDir` (which it rejects),
so classifying them inside the fold below is observationally identical.
`Prefix` (drive letters) and mid-path `RootDir` components do not exist in a
non-rooted Unix path. -/
def pathSegments (raw : String) : List String :=
  (splitOnSlash raw.data).filter (fun s => s ≠ "")

/-- `safe_relative_path` (install.rs:627-652): reject rooted paths, rebuild
component by component skipping `.`, rejecting `..` (and any rooted
component), and reject an empty result.  The returned `PathBuf` is modelled
as its list of pushed normal segments. -/
def safe_relative_path (raw : String) : Option (List String) :=
  if hasRoot raw then
    none
  else
    let comps := pathSegments raw
    let folded := comps.foldl (fun acc seg =>
      match acc with
      | none => none
      | some segs =>
        if seg = "." then some segs
        else if seg = ".." then none
        else some (segs ++ [seg])) (some [])
    match folded with
    | none => none
    | some [] => none
    | some segs => some segs

/-- Canonicalisation of a component list: `.` is dropped, `..` pops the last
segment — the "canonical form" in which `dest.join(result)` is compared with
`dest`. -/
def resolveComponents (l : List String) : List String :=
  l.foldl (fun acc seg =>
    if seg = "." then acc
    else if seg = ".." then acc.dropLast
    else acc ++ [seg]) []

/-- Once the sanitising fold has failed it stays failed. -/
theorem srp_fold_none (comps : List String) :
    comps.foldl (fun acc seg =>
      match acc with
      | none => none
      | some segs =>
        if seg = "." then some segs
        else if seg = ".." then none
        else some (segs ++ [seg])) none = none := by
  induction comps with
  | nil => rfl
  | cons c cs ih => simpa using ih

/-- Every segment the sanitising fold outputs is a normal one: not `..`, not
`.`, not empty. -/
theorem srp_fold_clean :
    ∀ (comps acc segs : List String),
    comps.foldl (fun acc seg =>
      match acc with
      | none => none
      | some segs =>
        if seg = "." then some segs
        else if seg = ".." then none
        else some (segs ++ [seg])) (some acc) = some segs →
    (∀ s ∈ comps, s ≠ "") →
    (∀ s ∈ acc, s ≠ ".." ∧ s ≠ "." ∧ s ≠ "") →
    (∀ s ∈ segs, s ≠ ".." ∧ s ≠ "." ∧ s ≠ "") := by
  intro comps
  induction comps with
  | nil =>
    intro acc segs h _ hacc
    simp only [List.foldl_nil, Option.some.injEq] at h
    exact h ▸ hacc
  | cons c cs ih =>
    intro acc segs h hcomp hacc
    rw [List.foldl_cons] at h
    dsimp only at h
    by_cases hdot : c = "."
    · rw [if_pos hdot] at h
      exact ih acc segs h (fun s hs => hcomp s (List.mem_cons_of_mem c hs)) hacc
    · rw [if_neg hdot] at h
      by_cases hdd : c = ".."
      · rw [if_pos hdd] at h
        rw [srp_fold_none] at h
        exact absurd h (by simp)
      · rw [if_neg hdd] at h
        refine ih (acc ++ [c]) segs h
          (fun s hs => hcomp s (List.mem_cons_of_mem c hs)) ?_
        intro s hs
        rcases List.mem_append.mp hs with hs | hs
        · exact hacc s hs
        · rw [List.mem_singleton.mp hs]
          exact ⟨hdd, hdot, hcomp c (List.mem_cons_self c cs)⟩

/-- Appending already-normal segments to any path just appends them in
canonical form. -/
theorem resolve_fold_clean :
    ∀ (l acc : List String), (∀ s ∈ l, s ≠ ".." ∧ s ≠ ".") →
    l.foldl (fun acc seg =>
      if seg = "." then acc
      else if seg = ".." then acc.dropLast
      else acc ++ [seg]) acc = acc ++ l := by
  intro l
  induction l with
  | nil => intro acc _; simp
  | cons c cs ih =>
    intro acc hcl
    rw [List.foldl_cons, if_neg (hcl c (by simp)).2, if_neg (hcl c (by simp)).1]
    rw [ih (acc ++ [c]) (fun s hs => hcl s (List.mem_cons_of_mem c hs)),
      List.append_assoc]
    rfl

-- ## Claim C8

/-- C8: whenever `safe_relative_path` returns a path, that path is non-empty,
relative (every component is a normal segment — no `..`, no `.`, no empty/
rooted component), and joining it onto any directory stays under that
directory: canonicalising `dest ++ result` appends `result` to the canonical
`dest`, so the canonical `dest` is a prefix of the joined path's canonical
form. -/
theorem safe_relative_path_safe (raw : String) (segs : List String)
    (h : safe_relative_path raw = some segs) :
    segs ≠ [] ∧
    (∀ s ∈ segs, s ≠ ".." ∧ s ≠ "." ∧ s ≠ "") ∧
    (∀ dest : List String,
        resolveComponents (dest ++ segs) = resolveComponents dest ++ segs) := by
  unfold safe_relative_path at h
  by_cases hroot : hasRoot raw = true
  · rw [if_pos hroot] at h
    exact absurd h (by simp)
  · rw [if_neg hroot] at h
    dsimp only at h
    cases hf : (pathSegments raw).foldl (fun acc seg =>
      match acc with
      | none => none
      | some segs =>
        if seg = "." then some segs
        else if seg = ".." then none
        else some (segs ++ [seg])) (some []) with
    | none => rw [hf] at h; exact absurd h (by simp)
    | some l =>
      rw [hf] at h
      cases l with
      | nil => exact absurd h (by simp)
      | cons a l2 =>
        have hsegs : segs = a :: l2 := by
          simpa using h.symm
        subst hsegs
        have hclean : ∀ s ∈ (a :: l2), s ≠ ".." ∧ s ≠ "." ∧ s ≠ "" := by
          refine srp_fold_clean (pathSegments raw) [] (a :: l2) hf ?_ (by simp)
          intro s hs
          have := (List.mem_filter.mp hs).2
          simpa using this
        refine ⟨by simp, hclean, ?_⟩
        intro dest
        unfold resolveComponents
        rw [List.foldl_append]
        exact resolve_fold_clean (a :: l2) _
          (fun s hs => ⟨(hclean s hs).1, (hclean s hs).2.1⟩)

/-- C8 witness: the theorem at the concrete input `"mods/sodium.jar"`. -/
theorem safe_relative_path_safe_witness :
    (["mods", "sodium.jar"] ≠ ([] : List String)) ∧
    (∀ s ∈ ["mods", "sodium.jar"], s ≠ ".." ∧ s ≠ "." ∧ s ≠ "") ∧
    (∀ dest : List String, resolveComponents (dest ++ ["mods", "sodium.jar"])
        = resolveComponents dest ++ ["mods", "sodium.jar"]) :=
  safe_relative_path_safe "mods/sodium.jar" ["mods", "sodium.jar"] (by decide)

-- ## Catalog store (`services/database.rs`, SQLite-backed)

/-- `ModSource` (models/mod_info.rs:20-26).  `Local` is `localSource` here
(`local` is a Lean keyword). -/
inductive ModSource where
  | curseforge
  | modrinth
  | localSource
deriving DecidableEq, Repr

/-- `s.parse::<ModSource>().unwrap_or(ModSource::Local)` as used by
apply_diff.rs:84-87 and 144-147: `FromStr` (models/mod_info.rs:38-49) maps the
three known strings and errors otherwise; `unwrap_or` turns the error into
`Local`. -/
def parse_mod_source (s : String) : ModSource :=
  match s with
  | "curseforge" => .curseforge
  | "modrinth" => .modrinth
  | _ => .localSource

/-- `ModInfo` (models/mod_info.rs:4-18).  `id` is a `uuid::Uuid::new_v4`
string in the code; freshness is modelled by drawing ids from the catalog's
counter (see `Catalog`).  `installed_at` (wall clock) is dropped. -/
structure ModInfo where
  id : Nat
  instance_id : String
  name : String
  slug : Option String
  version : String
  file_name : String
  file_hash : Option String
  source : ModSource
  source_project_id : Option String
  source_version_id : Option String
  is_active : Bool
deriving DecidableEq, Repr

/-- `MinecraftInstance`, restricted to the fields the embedded operations
read (`id`, `instance_path`, `is_active`; `name` and `minecraft_version` kept
for context).  Loader fields, icons, timestamps and play time are never read
by the operations under verification. -/
structure MinecraftInstance where
  id : String
  name : String
  minecraft_version : String
  instance_path : String
  is_active : Bool
deriving DecidableEq, Repr

/-- The relevant tables of the SQLite store (database.rs): `instances` and
`instance_mods`, in insertion order.  `nextModId` models the freshness of
`uuid::new_v4` record ids: every insertion uses the current counter as its id
and bumps it. -/
structure Catalog where
  instances : List MinecraftInstance
  mods : List ModInfo
  nextModId : Nat
deriving Repr

/-- Facts the real store guarantees for rows it produced: record ids are
unique (`id TEXT PRIMARY KEY`) and below the freshness counter (a new
`uuid::new_v4` never collides with an existing row). -/
def Catalog.WF (db : Catalog) : Prop :=
  (db.mods.map (·.id)).Nodup ∧ ∀ m ∈ db.mods, m.id < db.nextModId

/-- `get_instance` (database.rs:242-252): `WHERE id = ? AND is_active = 1`. -/
def get_instance (db : Catalog) (id : String) : Option MinecraftInstance :=
  db.instances.find? (fun i => i.id == id && i.is_active)

/-- `list_instance_mods` (database.rs:327-337):
`WHERE instance_id = ? AND is_active = 1 ORDER BY mod_name ASC`.  The model
keeps insertion order; SQLite's name ordering (ties unordered) is only ever
consumed through `find`-by-name below, which under the distinct-name
hypotheses of the theorems is order-independent. -/
def list_instance_mods (db : Catalog) (iid : String) : List ModInfo :=
  db.mods.filter (fun m => m.instance_id == iid && m.is_active)

/-- `add_mod_to_instance` (database.rs:302-325): plain `INSERT`.  The counter
bump models the freshness of the inserted row's UUID id. -/
def add_mod_to_instance (db : Catalog) (m : ModInfo) : Catalog :=
  { db with mods := db.mods ++ [m], nextModId := db.nextModId + 1 }

/-- `remove_mod_from_instance` (database.rs:339-346):
`UPDATE instance_mods SET is_active = 0 WHERE id = ?`. -/
def remove_mod_from_instance (db : Catalog) (mid : Nat) : Catalog :=
  { db with mods := db.mods.map (fun m =>
      if m.id == mid then { m with is_active := false } else m) }

-- ## Apply-diff (`services/sync_protocol/apply_diff.rs`)

/-- `ApplyResult` (apply_diff.rs:8-14). -/
structure ApplyResult where
  mods_added : List String
  mods_removed : List String
  mods_updated : List String
  errors : List String
deriving DecidableEq, Repr

/-- One iteration of the removal loop (apply_diff.rs:63-74): find the entry's
name in the `existing_mods` snapshot, soft-remove the found record by id and
record the name.  The store cannot fail in the model, so the error arm is
dead (the C5 claim assumes store operations succeed). -/
def apply_removals_step (existing : List ModInfo)
    (st : Catalog × ApplyResult) (entry : SyncModEntry) : Catalog × ApplyResult :=
  match existing.find? (fun m => m.name == entry.mod_name) with
  | some mi =>
    (remove_mod_from_instance st.1 mi.id,
      { st.2 with mods_removed := st.2.mods_removed ++ [entry.mod_name] })
  | none => st

/-- `apply_removals` (apply_diff.rs:49-75): the `existing_mods` snapshot is
listed once, before the loop. -/
def apply_removals (db : Catalog) (iid : String) (toRemove : List SyncModEntry)
    (result : ApplyResult) : Catalog × ApplyResult :=
  toRemove.foldl (apply_removals_step (list_instance_mods db iid)) (db, result)

/-- The fresh `ModInfo` the addition loop builds from an entry
(apply_diff.rs:89-102); `nid` models the `uuid::new_v4` id. -/
def addition_record (iid : String) (entry : SyncModEntry) (nid : Nat) : ModInfo :=
  { id := nid
    instance_id := iid
    name := entry.mod_name
    slug := none
    version := entry.mod_version
    file_name := entry.file_name
    file_hash := entry.file_hash
    source := parse_mod_source entry.source
    source_project_id := entry.source_project_id
    source_version_id := entry.source_version_id
    is_active := true }

/-- One iteration of the addition loop (apply_diff.rs:83-110): insert a fresh
active record built from the entry and record the name. -/
def apply_additions_step (iid : String)
    (st : Catalog × ApplyResult) (entry : SyncModEntry) : Catalog × ApplyResult :=
  (add_mod_to_instance st.1 (addition_record iid entry st.1.nextModId),
    { st.2 with mods_added := st.2.mods_added ++ [entry.mod_name] })

/-- `apply_additions` (apply_diff.rs:77-111). -/
def apply_additions (db : Catalog) (iid : String) (toAdd : List SyncModEntry)
    (result : ApplyResult) : Catalog × ApplyResult :=
  toAdd.foldl (apply_additions_step iid) (db, result)

/-- The fresh `ModInfo` the update loop builds from a `ModUpdate`
(apply_diff.rs:149-162): it carries the remote version, file name and hash;
`nid` models the `uuid::new_v4` id. -/
def update_record (iid : String) (u : ModUpdate) (nid : Nat) : ModInfo :=
  { id := nid
    instance_id := iid
    name := u.mod_name
    slug := none
    version := u.remote_version
    file_name := u.remote_file_name
    file_hash := u.remote_hash
    source := parse_mod_source u.source
    source_project_id := u.source_project_id
    source_version_id := u.source_version_id
    is_active := true }

/-- One iteration of the update loop (apply_diff.rs:129-171): soft-remove the
old record if the name is found in the snapshot (a missing record is simply
skipped), then insert a fresh active record carrying the remote version, file
name and hash, and record the name in `mods_updated`. -/
def apply_updates_step (iid : String) (existing : List ModInfo)
    (st : Catalog × ApplyResult) (u : ModUpdate) : Catalog × ApplyResult :=
  let db1 :=
    match existing.find? (fun m => m.name == u.mod_name) with
    | some old => remove_mod_from_instance st.1 old.id
    | none => st.1
  (add_mod_to_instance db1 (update_record iid u db1.nextModId),
    { st.2 with mods_updated := st.2.mods_updated ++ [u.mod_name] })

/-- `apply_updates` (apply_diff.rs:113-172): the `existing_mods` snapshot is
re-listed AFTER removals and additions have run. -/
def apply_updates (db : Catalog) (iid : String) (toUpdate : List ModUpdate)
    (result : ApplyResult) : Catalog × ApplyResult :=
  toUpdate.foldl (apply_updates_step iid (list_instance_mods db iid)) (db, result)

/-- `apply_diff` (apply_diff.rs:25-47): removals, then additions, then
updates; always returns the accumulated summary (`Ok(result)`). -/
def apply_diff (db : Catalog) (iid : String) (diff : ManifestDiff) :
    Catalog × ApplyResult :=
  let r0 : ApplyResult :=
    { mods_added := [], mods_removed := [], mods_updated := [], errors := [] }
  let s1 := apply_removals db iid diff.to_remove r0
  let s2 := apply_additions s1.1 iid diff.to_add s1.2
  apply_updates s2.1 iid diff.to_update s2.2

-- ## Catalog store lemmas

/-- Soft-removing a record id restricts the active list to the other ids. -/
theorem list_instance_mods_remove (db : Catalog) (mid : Nat) (iid : String) :
    list_instance_mods (remove_mod_from_instance db mid) iid
      = (list_instance_mods db iid).filter (fun m => m.id != mid) := by
  unfold list_instance_mods remove_mod_from_instance
  dsimp only
  rw [List.filter_map, List.filter_filter]
  have hpf : ∀ m ∈ db.mods,
      ((fun m => m.instance_id == iid && m.is_active) ∘
        (fun m => if m.id == mid then { m with is_active := false } else m)) m
      = ((m.id != mid) && (m.instance_id == iid && m.is_active)) := by
    intro m _
    by_cases hc : (m.id == mid) = true
    · have hb : (m.id != mid) = false := by simp [bne, hc]
      simp only [Function.comp_apply, if_pos hc, hb]
      simp
    · have hb : (m.id != mid) = true := by simp [bne, hc]
      simp only [Function.comp_apply, if_neg hc, hb]
      simp
  rw [List.filter_congr hpf]
  have hid : ∀ x ∈ db.mods.filter
      (fun a => (a.id != mid) && (a.instance_id == iid && a.is_active)),
      (fun m => if m.id == mid then { m with is_active := false } else m) x = x := by
    intro x hx
    have h2 := (List.mem_filter.mp hx).2
    rw [Bool.and_eq_true] at h2
    have hxid : (x.id == mid) = false := by
      have := h2.1
      simp [bne] at this
      simp [this]
    dsimp only
    rw [if_neg (by simp [hxid])]
  rw [List.map_congr_left hid]
  exact List.map_id _

/-- Inserting an active record of this instance appends it to the active
list. -/
theorem list_instance_mods_add (db : Catalog) (r : ModInfo) (iid : String)
    (h1 : r.instance_id = iid) (h2 : r.is_active = true) :
    list_instance_mods (add_mod_to_instance db r) iid
      = list_instance_mods db iid ++ [r] := by
  unfold list_instance_mods add_mod_to_instance
  dsimp only
  rw [List.filter_append]
  congr 1
  simp [h1, h2]

/-- Soft removal changes no record id. -/
theorem mods_remove_map_id (db : Catalog) (mid : Nat) :
    (remove_mod_from_instance db mid).mods.map (·.id) = db.mods.map (·.id) := by
  unfold remove_mod_from_instance
  dsimp only
  rw [List.map_map]
  apply List.map_congr_left
  intro m _
  simp only [Function.comp_apply]
  by_cases hc : (m.id == mid) = true
  · rw [if_pos hc]
  · rw [if_neg hc]

/-- A record with a different id is untouched by a soft removal. -/
theorem mem_mods_remove (db : Catalog) (mid : Nat) (m : ModInfo)
    (h : m ∈ db.mods) (hid : m.id ≠ mid) :
    m ∈ (remove_mod_from_instance db mid).mods := by
  unfold remove_mod_from_instance
  dsimp only
  refine List.mem_map.mpr ⟨m, h, ?_⟩
  rw [if_neg (by simp [hid])]

/-- Insertion keeps every existing record. -/
theorem mem_mods_add (db : Catalog) (r : ModInfo) (m : ModInfo)
    (h : m ∈ db.mods) : m ∈ (add_mod_to_instance db r).mods := by
  unfold add_mod_to_instance
  dsimp only
  exact List.mem_append.mpr (Or.inl h)

/-- Soft removal preserves store well-formedness. -/
theorem WF_remove (db : Catalog) (mid : Nat) (h : db.WF) :
    (remove_mod_from_instance db mid).WF := by
  refine ⟨?_, ?_⟩
  · rw [mods_remove_map_id]; exact h.1
  · intro m hm
    unfold remove_mod_from_instance at hm
    dsimp only at hm
    obtain ⟨m2, hm2, hf⟩ := List.mem_map.mp hm
    have hid : m.id = m2.id := by
      rw [← hf]
      by_cases hc : (m2.id == mid) = true
      · rw [if_pos hc]
      · rw [if_neg hc]
    have hnext : (remove_mod_from_instance db mid).nextModId = db.nextModId := rfl
    rw [hnext, hid]
    exact h.2 m2 hm2

/-- Inserting a record carrying the fresh counter id preserves store
well-formedness. -/
theorem WF_add (db : Catalog) (r : ModInfo) (h : db.WF)
    (hr : r.id = db.nextModId) : (add_mod_to_instance db r).WF := by
  refine ⟨?_, ?_⟩
  · unfold add_mod_to_instance
    dsimp only
    rw [List.map_append, List.nodup_append]
    refine ⟨h.1, by simp, ?_⟩
    intro x hx
    simp only [List.map_cons, List.map_nil, List.mem_singleton]
    intro hxr
    obtain ⟨m, hm, hmx⟩ := List.mem_map.mp hx
    have := h.2 m hm
    omega
  · intro m hm
    unfold add_mod_to_instance at hm ⊢
    dsimp only at hm ⊢
    rcases List.mem_append.mp hm with hm | hm
    · have := h.2 m hm; omega
    · rw [List.mem_singleton.mp hm, hr]; omega


theorem apply_updates_step_next (iid : String) (ex : List ModInfo)
    (st : Catalog × ApplyResult) (u : ModUpdate) :
    (apply_updates_step iid ex st u).1.nextModId = st.1.nextModId + 1 := by
  unfold apply_updates_step
  dsimp only
  cases hf : ex.find? (fun m => m.name == u.mod_name) <;> simp only [hf] <;> rfl

theorem apply_updates_fold_res (iid : String) (ex : List ModInfo) :
    ∀ (us : List ModUpdate) (st : Catalog × ApplyResult),
    (us.foldl (apply_updates_step iid ex) st).2
      = { st.2 with mods_updated := st.2.mods_updated ++ us.map (·.mod_name) } := by
  intro us
  induction us with
  | nil => intro st; simp
  | cons u us ih =>
    intro st
    rw [List.foldl_cons, ih]
    have hstep : (apply_updates_step iid ex st u).2
        = { st.2 with mods_updated := st.2.mods_updated ++ [u.mod_name] } := rfl
    rw [hstep]
    simp [List.append_assoc]

theorem apply_updates_fold_next (iid : String) (ex : List ModInfo) :
    ∀ (us : List ModUpdate) (st : Catalog × ApplyResult),
    st.1.nextModId ≤ ((us.foldl (apply_updates_step iid ex) st).1).nextModId := by
  intro us
  induction us with
  | nil => intro st; exact le_refl _
  | cons u us ih =>
    intro st
    rw [List.foldl_cons]
    refine le_trans ?_ (ih _)
    rw [apply_updates_step_next]
    omega

theorem apply_updates_fold_survive (iid : String) (ex : List ModInfo) :
    ∀ (us : List ModUpdate) (st : Catalog × ApplyResult) (r : ModInfo),
    r ∈ st.1.mods → (∀ me ∈ ex, me.id ≠ r.id) →
    r ∈ ((us.foldl (apply_updates_step iid ex) st).1).mods := by
  intro us
  induction us with
  | nil => intro st r hr _; exact hr
  | cons u us ih =>
    intro st r hr hex
    rw [List.foldl_cons]
    refine ih _ r ?_ hex
    unfold apply_updates_step
    dsimp only
    cases hf : ex.find? (fun m => m.name == u.mod_name) with
    | none =>
      simp only [hf]
      exact mem_mods_add _ _ _ hr
    | some old =>
      simp only [hf]
      refine mem_mods_add _ _ _ (mem_mods_remove _ _ _ hr ?_)
      exact fun e => (hex old (List.mem_of_find?_eq_some hf)) e.symm

theorem apply_updates_step_inserts (iid : String) (ex : List ModInfo)
    (st : Catalog × ApplyResult) (u : ModUpdate) :
    update_record iid u st.1.nextModId ∈ (apply_updates_step iid ex st u).1.mods := by
  unfold apply_updates_step
  dsimp only
  cases hf : ex.find? (fun m => m.name == u.mod_name) with
  | none =>
    simp only [hf]
    exact List.mem_append.mpr (Or.inr (List.mem_singleton.mpr rfl))
  | some old =>
    simp only [hf]
    exact List.mem_append.mpr (Or.inr (List.mem_singleton.mpr rfl))

/-- C10: an update entry whose `mod_name` matches no active record of the
instance is NOT an error for `apply_updates` (apply_diff.rs:129-171): the
`find` on the snapshot misses, so the removal is skipped, a fresh active
record carrying the remote version, file name and hash is still inserted, the
name is counted in `mods_updated`, no error is recorded, and every existing
record (in particular any inactive one of that name) is left in place — an
update on a missing local mod silently behaves as an addition. -/
theorem apply_updates_missing_local_is_add (db : Catalog) (iid : String)
    (toUpdate : List ModUpdate) (result : ApplyResult) (u : ModUpdate)
    (hwf : db.WF) (hu : u ∈ toUpdate)
    (hmiss : ∀ m ∈ list_instance_mods db iid, m.name ≠ u.mod_name) :
    (apply_updates db iid toUpdate result).2.errors = result.errors ∧
    u.mod_name ∈ (apply_updates db iid toUpdate result).2.mods_updated ∧
    (∃ r ∈ (apply_updates db iid toUpdate result).1.mods,
        r.instance_id = iid ∧ r.is_active = true ∧ r.name = u.mod_name ∧
        r.version = u.remote_version ∧ r.file_name = u.remote_file_name ∧
        r.file_hash = u.remote_hash) ∧
    (∀ m ∈ db.mods, m.name = u.mod_name →
        m ∈ (apply_updates db iid toUpdate result).1.mods) := by
  have hdef : apply_updates db iid toUpdate result
      = toUpdate.foldl (apply_updates_step iid (list_instance_mods db iid))
          (db, result) := rfl
  have hex_sub : ∀ me ∈ list_instance_mods db iid, me ∈ db.mods := by
    intro me hme
    exact List.mem_of_mem_filter hme
  refine ⟨?_, ?_, ?_, ?_⟩
  · rw [hdef, apply_updates_fold_res]
  · rw [hdef, apply_updates_fold_res]
    exact List.mem_append.mpr (Or.inr (List.mem_map_of_mem _ hu))
  · obtain ⟨pre, suf, hsplit⟩ := List.append_of_mem hu
    rw [hdef, hsplit, List.foldl_append, List.foldl_cons]
    set st1 := pre.foldl (apply_updates_step iid (list_instance_mods db iid))
      (db, result) with hst1
    have hins := apply_updates_step_inserts iid (list_instance_mods db iid) st1 u
    have hnext : db.nextModId ≤ st1.1.nextModId := by
      rw [hst1]
      exact apply_updates_fold_next iid (list_instance_mods db iid) pre (db, result)
    have hexid : ∀ me ∈ list_instance_mods db iid,
        me.id ≠ (update_record iid u st1.1.nextModId).id := by
      intro me hme
      have := hwf.2 me (hex_sub me hme)
      show me.id ≠ st1.1.nextModId
      omega
    exact ⟨update_record iid u st1.1.nextModId,
      apply_updates_fold_survive iid (list_instance_mods db iid) suf
        (apply_updates_step iid (list_instance_mods db iid) st1 u)
        (update_record iid u st1.1.nextModId) hins hexid,
      rfl, rfl, rfl, rfl, rfl, rfl⟩
  · intro m hm hname
    have hexid : ∀ me ∈ list_instance_mods db iid, me.id ≠ m.id := by
      intro me hme heq
      have hmeq : me = m := List.inj_on_of_nodup_map hwf.1 (hex_sub me hme) hm heq
      exact hmiss me hme (by rw [hmeq, hname])
    rw [hdef]
    exact apply_updates_fold_survive iid (list_instance_mods db iid) toUpdate
      (db, result) m hm hexid

theorem act_sub_mods (db : Catalog) (iid : String) :
    ∀ m ∈ list_instance_mods db iid, m ∈ db.mods := by
  intro m hm
  exact List.mem_of_mem_filter hm

theorem act_ids_nodup (db : Catalog) (iid : String) (h : db.WF) :
    ((list_instance_mods db iid).map (·.id)).Nodup := by
  refine List.Nodup.sublist ?_ h.1
  exact List.Sublist.map _ (List.filter_sublist _)

theorem find_name_eq {l : List ModInfo} {n : String} {me : ModInfo}
    (h : l.find? (fun m => m.name == n) = some me) : me.name = n := by
  have := List.find?_some h
  simpa using this

theorem filter_ne_id_perm (cur : List ModInfo) (me : ModInfo) (hme : me ∈ cur)
    (hnd : (cur.map (·.id)).Nodup) :
    List.Perm (me :: cur.filter (fun m => m.id != me.id)) cur := by
  induction cur with
  | nil => cases hme
  | cons a l ih =>
    rw [List.map_cons, List.nodup_cons] at hnd
    by_cases ha : a = me
    · subst ha
      have hfl : l.filter (fun m => m.id != a.id) = l := by
        apply List.filter_eq_self.mpr
        intro m hm
        have : m.id ≠ a.id := by
          intro e
          exact hnd.1 (e ▸ List.mem_map_of_mem (·.id) hm)
        simp [bne, this]
      rw [List.filter_cons, if_neg (by simp)]
      rw [hfl]
    · have hm : me ∈ l := by
        rcases List.mem_cons.mp hme with h | h
        · exact absurd h.symm ha
        · exact h
      have haid : (a.id != me.id) = true := by
        have : a.id ≠ me.id := by
          intro e
          exact hnd.1 (e ▸ List.mem_map_of_mem (·.id) hm)
        simp [bne, this]
      rw [List.filter_cons, if_pos haid]
      exact (List.Perm.swap a me _).trans (List.Perm.cons a (ih hm hnd.2))

theorem apply_updates_fold_main (iid : String) (ex : List ModInfo) :
    ∀ (us : List ModUpdate) (st : Catalog × ApplyResult),
    ((us.map (·.mod_name)).Nodup) →
    (∀ u ∈ us, ∃ me, ex.find? (fun m => m.name == u.mod_name) = some me ∧
        me ∈ list_instance_mods st.1 iid) →
    st.1.WF →
    (((list_instance_mods st.1 iid).map (·.name)).Nodup) →
    (∀ me ∈ ex, me.id < st.1.nextModId) →
    List.Perm
      ((list_instance_mods ((us.foldl (apply_updates_step iid ex) st).1) iid).map (·.name))
      ((list_instance_mods st.1 iid).map (·.name)) ∧
    (∀ u ∈ us, ∃ r ∈ list_instance_mods ((us.foldl (apply_updates_step iid ex) st).1) iid,
        r.name = u.mod_name ∧ r.version = u.remote_version ∧
        r.file_name = u.remote_file_name ∧ r.file_hash = u.remote_hash) := by
  intro us
  induction us with
  | nil =>
    intro st _ _ _ _ _
    exact ⟨List.Perm.refl _, by simp⟩
  | cons u us ih =>
    intro st hnd hfound hwf hact hexb
    obtain ⟨me, hfme, hmeact⟩ := hfound u (List.mem_cons_self u us)
    have hmename : me.name = u.mod_name := find_name_eq hfme
    have hstep1 : (apply_updates_step iid ex st u).1
        = add_mod_to_instance (remove_mod_from_instance st.1 me.id)
            (update_record iid u st.1.nextModId) := by
      unfold apply_updates_step
      dsimp only
      rw [hfme]
      rfl
    have hact2 : list_instance_mods (apply_updates_step iid ex st u).1 iid
        = ((list_instance_mods st.1 iid).filter (fun m => m.id != me.id))
            ++ [update_record iid u st.1.nextModId] := by
      rw [hstep1,
        list_instance_mods_add (remove_mod_from_instance st.1 me.id)
          (update_record iid u st.1.nextModId) iid rfl rfl,
        list_instance_mods_remove]
    have hcurids : ((list_instance_mods st.1 iid).map (·.id)).Nodup :=
      act_ids_nodup st.1 iid hwf
    have hperm1 : List.Perm
        (me :: (list_instance_mods st.1 iid).filter (fun m => m.id != me.id))
        (list_instance_mods st.1 iid) :=
      filter_ne_id_perm _ me hmeact hcurids
    have hperm2 : List.Perm
        ((list_instance_mods (apply_updates_step iid ex st u).1 iid).map (·.name))
        ((list_instance_mods st.1 iid).map (·.name)) := by
      rw [hact2, List.map_append]
      have h1 : List.Perm
          ((((list_instance_mods st.1 iid).filter (fun m => m.id != me.id)).map (·.name))
            ++ [update_record iid u st.1.nextModId].map (·.name))
          (u.mod_name
            :: (((list_instance_mods st.1 iid).filter (fun m => m.id != me.id)).map (·.name))) :=
        List.perm_append_singleton _ _
      refine h1.trans ?_
      have h2 := hperm1.map (·.name)
      rw [List.map_cons, hmename] at h2
      exact h2
    -- Facts for the tail
    have hnext2 : (apply_updates_step iid ex st u).1.nextModId = st.1.nextModId + 1 :=
      apply_updates_step_next iid ex st u
    have hfound2 : ∀ v ∈ us, ∃ me2, ex.find? (fun m => m.name == v.mod_name) = some me2 ∧
        me2 ∈ list_instance_mods (apply_updates_step iid ex st u).1 iid := by
      intro v hv
      obtain ⟨me2, hfme2, hme2act⟩ := hfound v (List.mem_cons_of_mem u hv)
      refine ⟨me2, hfme2, ?_⟩
      have hname2 : me2.name = v.mod_name := find_name_eq hfme2
      have hvne : v.mod_name ≠ u.mod_name := by
        rw [List.map_cons, List.nodup_cons] at hnd
        intro e
        exact hnd.1 (e ▸ List.mem_map_of_mem (·.mod_name) hv)
      have hne : me2.id ≠ me.id := by
        intro e
        have : me2 = me := List.inj_on_of_nodup_map hwf.1
          (act_sub_mods st.1 iid me2 hme2act) (act_sub_mods st.1 iid me hmeact) e
        exact hvne (by rw [← hname2, this, hmename])
      rw [hact2]
      refine List.mem_append.mpr (Or.inl ?_)
      refine List.mem_filter.mpr ⟨hme2act, by simp [bne, hne]⟩
    have hwf2 : (apply_updates_step iid ex st u).1.WF := by
      rw [hstep1]
      exact WF_add _ _ (WF_remove _ _ hwf) rfl
    have hactnd2 : (((list_instance_mods (apply_updates_step iid ex st u).1 iid).map (·.name)).Nodup) :=
      (hperm2.nodup_iff).mpr hact
    have hexb2 : ∀ me2 ∈ ex, me2.id < (apply_updates_step iid ex st u).1.nextModId := by
      intro me2 hme2
      rw [hnext2]
      exact Nat.lt_succ_of_lt (hexb me2 hme2)
    have hndtail : ((us.map (·.mod_name)).Nodup) := by
      rw [List.map_cons, List.nodup_cons] at hnd
      exact hnd.2
    have hih := ih (apply_updates_step iid ex st u) hndtail hfound2 hwf2 hactnd2 hexb2
    rw [List.foldl_cons]
    constructor
    · exact hih.1.trans hperm2
    · intro v hv
      rcases List.mem_cons.mp hv with hveq | hvmem
      · subst hveq
        have hrmem : update_record iid v st.1.nextModId
            ∈ (apply_updates_step iid ex st v).1.mods := by
          rw [hstep1]
          unfold add_mod_to_instance
          dsimp only
          exact List.mem_append.mpr (Or.inr (List.mem_singleton.mpr rfl))
        have hexid : ∀ me2 ∈ ex, me2.id ≠ (update_record iid v st.1.nextModId).id := by
          intro me2 hme2
          have := hexb me2 hme2
          show me2.id ≠ st.1.nextModId
          omega
        have hsurv := apply_updates_fold_survive iid ex us (apply_updates_step iid ex st v)
          (update_record iid v st.1.nextModId) hrmem hexid
        refine ⟨update_record iid v st.1.nextModId, ?_, rfl, rfl, rfl, rfl⟩
        exact List.mem_filter.mpr ⟨hsurv, by simp [update_record]⟩
      · exact hih.2 v hvmem

theorem apply_additions_fold_main (iid : String) :
    ∀ (es : List SyncModEntry) (st : Catalog × ApplyResult),
    ((list_instance_mods ((es.foldl (apply_additions_step iid) st).1) iid).map (·.name)
        = (list_instance_mods st.1 iid).map (·.name) ++ es.map (·.mod_name)) ∧
    ((es.foldl (apply_additions_step iid) st).2
        = { st.2 with mods_added := st.2.mods_added ++ es.map (·.mod_name) }) ∧
    (st.1.WF → ((es.foldl (apply_additions_step iid) st).1).WF) ∧
    (∀ m ∈ list_instance_mods st.1 iid,
        m ∈ list_instance_mods ((es.foldl (apply_additions_step iid) st).1) iid) := by
  intro es
  induction es with
  | nil =>
    intro st
    refine ⟨by simp, by simp, fun h => h, fun m hm => hm⟩
  | cons e es ih =>
    intro st
    rw [List.foldl_cons]
    have hstep1 : (apply_additions_step iid st e).1
        = add_mod_to_instance st.1 (addition_record iid e st.1.nextModId) := rfl
    have hact1 : list_instance_mods (apply_additions_step iid st e).1 iid
        = list_instance_mods st.1 iid ++ [addition_record iid e st.1.nextModId] := by
      rw [hstep1, list_instance_mods_add st.1
        (addition_record iid e st.1.nextModId) iid rfl rfl]
    obtain ⟨ha, hb, hc, hdm⟩ := ih (apply_additions_step iid st e)
    refine ⟨?_, ?_, ?_, ?_⟩
    · rw [ha, hact1]
      simp [List.append_assoc, addition_record]
    · rw [hb]
      have : (apply_additions_step iid st e).2
          = { st.2 with mods_added := st.2.mods_added ++ [e.mod_name] } := rfl
      rw [this]
      simp [List.append_assoc]
    · intro hwf
      refine hc ?_
      rw [hstep1]
      exact WF_add st.1 (addition_record iid e st.1.nextModId) hwf rfl
    · intro m hm
      refine hdm m ?_
      rw [hact1]
      exact List.mem_append.mpr (Or.inl hm)

theorem apply_removals_fold_main (iid : String) (ex : List ModInfo) :
    ∀ (es : List SyncModEntry) (st : Catalog × ApplyResult),
    ((es.map (·.mod_name)).Nodup) →
    (∀ e ∈ es, ∃ me, ex.find? (fun m => m.name == e.mod_name) = some me ∧
        me ∈ list_instance_mods st.1 iid) →
    ((st.1.mods.map (·.id)).Nodup) →
    (((list_instance_mods st.1 iid).map (·.name)).Nodup) →
    (list_instance_mods ((es.foldl (apply_removals_step ex) st).1) iid
        = (list_instance_mods st.1 iid).filter
            (fun m => !decide (m.name ∈ es.map (·.mod_name)))) ∧
    ((es.foldl (apply_removals_step ex) st).2
        = { st.2 with mods_removed := st.2.mods_removed ++ es.map (·.mod_name) }) ∧
    ((es.foldl (apply_removals_step ex) st).1.mods.map (·.id) = st.1.mods.map (·.id)) ∧
    ((es.foldl (apply_removals_step ex) st).1.nextModId = st.1.nextModId) := by
  intro es
  induction es with
  | nil =>
    intro st _ _ _ _
    refine ⟨?_, by simp, rfl, rfl⟩
    simp
  | cons e es ih =>
    intro st hnd hfound hids hact
    obtain ⟨me, hfme, hmeact⟩ := hfound e (List.mem_cons_self e es)
    have hmename : me.name = e.mod_name := find_name_eq hfme
    have hstep1 : (apply_removals_step ex st e).1
        = remove_mod_from_instance st.1 me.id := by
      unfold apply_removals_step
      rw [hfme]
    have hstep2 : (apply_removals_step ex st e).2
        = { st.2 with mods_removed := st.2.mods_removed ++ [e.mod_name] } := by
      unfold apply_removals_step
      rw [hfme]
    have hact1 : list_instance_mods (apply_removals_step ex st e).1 iid
        = (list_instance_mods st.1 iid).filter (fun m => m.id != me.id) := by
      rw [hstep1, list_instance_mods_remove]
    -- invariants for the tail
    have hndtail : (es.map (·.mod_name)).Nodup := by
      rw [List.map_cons, List.nodup_cons] at hnd
      exact hnd.2
    have hheadnotin : e.mod_name ∉ es.map (·.mod_name) := by
      rw [List.map_cons, List.nodup_cons] at hnd
      exact hnd.1
    have hids1 : ((apply_removals_step ex st e).1.mods.map (·.id)).Nodup := by
      rw [hstep1, mods_remove_map_id]
      exact hids
    have hact1nd : (((list_instance_mods (apply_removals_step ex st e).1 iid).map (·.name)).Nodup) := by
      rw [hact1]
      exact List.Nodup.sublist (List.Sublist.map _ (List.filter_sublist _)) hact
    have hfound1 : ∀ e2 ∈ es, ∃ me2, ex.find? (fun m => m.name == e2.mod_name) = some me2 ∧
        me2 ∈ list_instance_mods (apply_removals_step ex st e).1 iid := by
      intro e2 he2
      obtain ⟨me2, hfme2, hme2act⟩ := hfound e2 (List.mem_cons_of_mem e he2)
      refine ⟨me2, hfme2, ?_⟩
      have hname2 : me2.name = e2.mod_name := find_name_eq hfme2
      have hne : me2.id ≠ me.id := by
        intro hideq
        have : me2 = me := List.inj_on_of_nodup_map hids
          (act_sub_mods st.1 iid me2 hme2act) (act_sub_mods st.1 iid me hmeact) hideq
        apply hheadnotin
        have : e2.mod_name = e.mod_name := by rw [← hname2, this, hmename]
        exact this ▸ List.mem_map_of_mem (·.mod_name) he2
      rw [hact1]
      exact List.mem_filter.mpr ⟨hme2act, by simp [bne, hne]⟩
    obtain ⟨ha, hb, hc, hd⟩ := ih (apply_removals_step ex st e) hndtail hfound1 hids1 hact1nd
    rw [List.foldl_cons]
    refine ⟨?_, ?_, ?_, ?_⟩
    · rw [ha, hact1, List.filter_filter]
      apply List.filter_congr
      intro m hm
      by_cases hme2 : m.name = e.mod_name
      · have hmeq : m = me := by
          apply List.inj_on_of_nodup_map hact hm hmeact
          rw [hmename, hme2]
        have h1 : (m.id != me.id) = false := by simp [hmeq]
        simp [h1, hme2]
      · have hmne : m ≠ me := fun c => hme2 (by rw [c, hmename])
        have hmid : m.id ≠ me.id := by
          intro c
          exact hmne (List.inj_on_of_nodup_map hids
            (act_sub_mods st.1 iid m hm) (act_sub_mods st.1 iid me hmeact) c)
        have h1 : (m.id != me.id) = true := by simp [bne, hmid]
        by_cases h3 : m.name ∈ es.map (·.mod_name)
        · simp [h1, hme2, h3]
        · simp [h1, hme2, h3]
    · rw [hb, hstep2]
      simp [List.append_assoc]
    · rw [hc, hstep1, mods_remove_map_id]
    · rw [hd, hstep1]
      rfl
-- ## Shared list helpers for the apply-diff development

/-- Mapping `g` over a `filterMap` whose outputs agree with `h` on the kept
elements yields a sublist of mapping `h` over the source list. -/
theorem filterMap_map_sublist {α β γ : Type} (f : α → Option β) (g : β → γ)
    (h : α → γ) (hfg : ∀ a b, f a = some b → g b = h a) :
    ∀ l : List α, List.Sublist ((l.filterMap f).map g) (l.map h) := by
  intro l
  induction l with
  | nil => simp
  | cons a l ih =>
    rw [List.filterMap_cons, List.map_cons]
    cases hfa : f a with
    | none =>
      show List.Sublist ((l.filterMap f).map g) (h a :: l.map h)
      exact List.Sublist.cons _ ih
    | some b =>
      show List.Sublist (((b :: l.filterMap f)).map g) (h a :: l.map h)
      rw [List.map_cons, hfg a b hfa]
      exact List.Sublist.cons₂ _ ih

/-- The negated `contains_key` probe of the diff engine, as a decidable
membership test on the indexed names. -/
theorem not_idxContains_eq (ms : List SyncModEntry) (n : String) :
    (!idxContains ms n) = !decide (n ∈ ms.map (·.mod_name)) := by
  by_cases h : n ∈ ms.map (·.mod_name)
  · rw [(idxContains_iff ms n).mpr h]
    simp [h]
  · have hf : idxContains ms n = false := by
      cases hct : idxContains ms n
      · rfl
      · exact absurd ((idxContains_iff ms n).mp hct) h
    rw [hf]
    simp [h]

-- ## Claim C5

/-- C5 (amended with the well-formedness the code relies on: store record ids
are unique and below the freshness counter (`Catalog.WF`), and `mod_name`s
are distinct within each manifest — the claim fails for duplicate names, see
the counterexample): for every store whose active mod list for the instance
is name-equal (as a multiset) to L's mods, `apply_diff` of `compute_diff(L,R)`
yields an active list name-equal to R's mods; every update entry ends carried
by an active record with R's version, file name and hash; and the summary
reports exactly the diff's added, removed and updated names with no errors. -/
theorem apply_diff_determinism (db : Catalog) (iid : String) (L R : SyncManifest)
    (hwf : db.WF)
    (hLnd : (L.mods.map (·.mod_name)).Nodup)
    (hRnd : (R.mods.map (·.mod_name)).Nodup)
    (hname : (((list_instance_mods db iid).map (·.name) : List String) : Multiset String)
      = ((L.mods.map (·.mod_name) : List String) : Multiset String)) :
    ((((list_instance_mods (apply_diff db iid (compute_diff L R)).1 iid).map (·.name)
        : List String) : Multiset String)
      = ((R.mods.map (·.mod_name) : List String) : Multiset String)) ∧
    (∀ u ∈ (compute_diff L R).to_update,
      ∃ r ∈ list_instance_mods (apply_diff db iid (compute_diff L R)).1 iid,
        r.name = u.mod_name ∧ r.version = u.remote_version ∧
        r.file_name = u.remote_file_name ∧ r.file_hash = u.remote_hash) ∧
    (apply_diff db iid (compute_diff L R)).2.mods_added
      = (compute_diff L R).to_add.map (·.mod_name) ∧
    (apply_diff db iid (compute_diff L R)).2.mods_removed
      = (compute_diff L R).to_remove.map (·.mod_name) ∧
    (apply_diff db iid (compute_diff L R)).2.mods_updated
      = (compute_diff L R).to_update.map (·.mod_name) ∧
    (apply_diff db iid (compute_diff L R)).2.errors = [] := by
  have hperm0 : List.Perm ((list_instance_mods db iid).map (·.name))
      (L.mods.map (·.mod_name)) := Multiset.coe_eq_coe.mp hname
  have hdr : (compute_diff L R).to_remove
      = L.mods.filter (fun m => !idxContains R.mods m.mod_name) := by
    show find_removals (nameIndex L.mods) (nameIndex R.mods) = _
    rw [nameIndex_of_nodup L.mods hLnd, nameIndex_of_nodup R.mods hRnd]
    rfl
  have hda : (compute_diff L R).to_add
      = R.mods.filter (fun m => !idxContains L.mods m.mod_name) := by
    show find_additions (nameIndex L.mods) (nameIndex R.mods) = _
    rw [nameIndex_of_nodup L.mods hLnd, nameIndex_of_nodup R.mods hRnd]
    rfl
  have hdu : (compute_diff L R).to_update
      = L.mods.filterMap (fun lm =>
          match idxGet R.mods lm.mod_name with
          | none => none
          | some rm => if mod_needs_update lm rm then some (mkUpdate lm rm) else none) := by
    show find_updates (nameIndex L.mods) (nameIndex R.mods) = _
    rw [nameIndex_of_nodup L.mods hLnd, nameIndex_of_nodup R.mods hRnd]
    rfl
  set r0 : ApplyResult :=
    { mods_added := []
      mods_removed := []
      mods_updated := []
      errors := [] } with hr0
  set s1 := (compute_diff L R).to_remove.foldl
    (apply_removals_step (list_instance_mods db iid)) (db, r0) with hs1def
  set s2 := (compute_diff L R).to_add.foldl (apply_additions_step iid) s1 with hs2def
  have happ : apply_diff db iid (compute_diff L R)
      = (compute_diff L R).to_update.foldl
          (apply_updates_step iid (list_instance_mods s2.1 iid)) s2 := rfl
  -- Phase 1: removals.
  have hremnd : ((compute_diff L R).to_remove.map (·.mod_name)).Nodup := by
    rw [hdr]
    exact List.Nodup.sublist (List.Sublist.map _ (List.filter_sublist _)) hLnd
  have hfound0 : ∀ e ∈ (compute_diff L R).to_remove,
      ∃ me, (list_instance_mods db iid).find? (fun m => m.name == e.mod_name) = some me ∧
        me ∈ list_instance_mods (db, r0).1 iid := by
    intro e he
    have heL : e ∈ L.mods := by
      rw [hdr] at he
      exact List.mem_of_mem_filter he
    have hnact : e.mod_name ∈ (list_instance_mods db iid).map (·.name) :=
      hperm0.mem_iff.mpr (List.mem_map_of_mem _ heL)
    obtain ⟨me, hmeact, hmen⟩ := List.mem_map.mp hnact
    have hsome : ((list_instance_mods db iid).find? (fun m => m.name == e.mod_name)).isSome :=
      List.find?_isSome.mpr ⟨me, hmeact, by simp [hmen]⟩
    cases hfind : (list_instance_mods db iid).find? (fun m => m.name == e.mod_name) with
    | none =>
      rw [hfind] at hsome
      exact absurd hsome (by simp)
    | some me2 => exact ⟨me2, rfl, List.mem_of_find?_eq_some hfind⟩
  have hact0nd : ((list_instance_mods db iid).map (·.name)).Nodup :=
    hperm0.nodup_iff.mpr hLnd
  obtain ⟨h1a, h1b, h1c, h1d⟩ := apply_removals_fold_main iid (list_instance_mods db iid)
    (compute_diff L R).to_remove (db, r0) hremnd hfound0 hwf.1 hact0nd
  rw [← hs1def] at h1a h1b h1c h1d
  have h1a' : list_instance_mods s1.1 iid
      = (list_instance_mods db iid).filter
          (fun m => !decide (m.name ∈ (compute_diff L R).to_remove.map (·.mod_name))) := h1a
  have h1b' : s1.2 = { r0 with
      mods_removed := r0.mods_removed ++ (compute_diff L R).to_remove.map (·.mod_name) } := h1b
  have h1c' : s1.1.mods.map (·.id) = db.mods.map (·.id) := h1c
  have h1d' : s1.1.nextModId = db.nextModId := h1d
  have hwf1 : s1.1.WF := by
    constructor
    · rw [h1c']
      exact hwf.1
    · intro m hm
      have hmem : m.id ∈ s1.1.mods.map (·.id) := List.mem_map_of_mem _ hm
      rw [h1c'] at hmem
      obtain ⟨m2, hm2, he⟩ := List.mem_map.mp hmem
      rw [h1d', ← he]
      exact hwf.2 m2 hm2
  -- Phase 2: additions.
  obtain ⟨h2a, h2b, h2c, h2d⟩ := apply_additions_fold_main iid (compute_diff L R).to_add s1
  rw [← hs2def] at h2a h2b h2c h2d
  have hwf2 : s2.1.WF := h2c hwf1
  -- Phase 3: updates.
  have hupnd : ((compute_diff L R).to_update.map (·.mod_name)).Nodup := by
    rw [hdu]
    refine List.Nodup.sublist ?_ hLnd
    refine filterMap_map_sublist _ _ _ ?_ L.mods
    intro lm u hu
    cases hg : idxGet R.mods lm.mod_name with
    | none =>
      rw [hg] at hu
      simp at hu
    | some rm =>
      rw [hg] at hu
      have hu2 : (if mod_needs_update lm rm then some (mkUpdate lm rm) else none)
          = some u := hu
      by_cases hneed : mod_needs_update lm rm = true
      · rw [if_pos hneed] at hu2
        injection hu2 with hu3
        exact hu3 ▸ (rfl : (mkUpdate lm rm).mod_name = lm.mod_name)
      · rw [if_neg hneed] at hu2
        simp at hu2
  have hfound2 : ∀ u ∈ (compute_diff L R).to_update,
      ∃ me, (list_instance_mods s2.1 iid).find? (fun m => m.name == u.mod_name) = some me ∧
        me ∈ list_instance_mods s2.1 iid := by
    intro u hu
    rw [hdu] at hu
    obtain ⟨lm, hlm, hfu⟩ := List.mem_filterMap.mp hu
    cases hg : idxGet R.mods lm.mod_name with
    | none =>
      rw [hg] at hfu
      simp at hfu
    | some rm =>
      rw [hg] at hfu
      have hfu2 : (if mod_needs_update lm rm then some (mkUpdate lm rm) else none)
          = some u := hfu
      have hinR : lm.mod_name ∈ R.mods.map (·.mod_name) := by
        refine (idxContains_iff R.mods lm.mod_name).mp ?_
        unfold idxContains
        rw [hg]
        rfl
      have hnameu : u.mod_name = lm.mod_name := by
        by_cases hneed : mod_needs_update lm rm = true
        · rw [if_pos hneed] at hfu2
          injection hfu2 with hu3
          exact hu3 ▸ (rfl : (mkUpdate lm rm).mod_name = lm.mod_name)
        · rw [if_neg hneed] at hfu2
          simp at hfu2
      have hnact : lm.mod_name ∈ (list_instance_mods db iid).map (·.name) :=
        hperm0.mem_iff.mpr (List.mem_map_of_mem _ hlm)
      obtain ⟨me, hmeact0, hmen⟩ := List.mem_map.mp hnact
      have hnotrem : me.name ∉ (compute_diff L R).to_remove.map (·.mod_name) := by
        rw [hdr]
        intro hmem
        obtain ⟨e, he, hen⟩ := List.mem_map.mp hmem
        have hrc := (List.mem_filter.mp he).2
        have htrue : idxContains R.mods e.mod_name = true := by
          refine (idxContains_iff R.mods e.mod_name).mpr ?_
          rw [hen, hmen]
          exact hinR
        rw [htrue] at hrc
        exact absurd hrc (by simp)
      have hme1 : me ∈ list_instance_mods s1.1 iid := by
        rw [h1a']
        refine List.mem_filter.mpr ⟨hmeact0, ?_⟩
        simp [hnotrem]
      have hme2 : me ∈ list_instance_mods s2.1 iid := h2d me hme1
      have hsome : ((list_instance_mods s2.1 iid).find?
          (fun m => m.name == u.mod_name)).isSome :=
        List.find?_isSome.mpr ⟨me, hme2, by simp [hmen, hnameu]⟩
      cases hfind : (list_instance_mods s2.1 iid).find? (fun m => m.name == u.mod_name) with
      | none =>
        rw [hfind] at hsome
        exact absurd hsome (by simp)
      | some me3 => exact ⟨me3, rfl, List.mem_of_find?_eq_some hfind⟩
  have hact1nd : ((list_instance_mods s1.1 iid).map (·.name)).Nodup := by
    rw [h1a']
    exact List.Nodup.sublist (List.Sublist.map _ (List.filter_sublist _)) hact0nd
  have haddndN : ((compute_diff L R).to_add.map (·.mod_name)).Nodup := by
    rw [hda]
    exact List.Nodup.sublist (List.Sublist.map _ (List.filter_sublist _)) hRnd
  have hdisj : List.Disjoint ((list_instance_mods s1.1 iid).map (·.name))
      ((compute_diff L R).to_add.map (·.mod_name)) := by
    intro n hn1 hn2
    have hn0 : n ∈ (list_instance_mods db iid).map (·.name) := by
      rw [h1a'] at hn1
      obtain ⟨m, hm, hmn⟩ := List.mem_map.mp hn1
      exact List.mem_map.mpr ⟨m, List.mem_of_mem_filter hm, hmn⟩
    have hnL : n ∈ L.mods.map (·.mod_name) := hperm0.mem_iff.mp hn0
    rw [hda] at hn2
    obtain ⟨e, he, hen⟩ := List.mem_map.mp hn2
    have hrc := (List.mem_filter.mp he).2
    have htrue : idxContains L.mods e.mod_name = true := by
      refine (idxContains_iff L.mods e.mod_name).mpr ?_
      rw [hen]
      exact hnL
    rw [htrue] at hrc
    exact absurd hrc (by simp)
  have hact2nd : ((list_instance_mods s2.1 iid).map (·.name)).Nodup := by
    rw [h2a]
    exact List.nodup_append.mpr ⟨hact1nd, haddndN, hdisj⟩
  have hexb2 : ∀ me ∈ list_instance_mods s2.1 iid, me.id < s2.1.nextModId := by
    intro me hme
    exact hwf2.2 me (act_sub_mods s2.1 iid me hme)
  obtain ⟨h3a, h3b⟩ := apply_updates_fold_main iid (list_instance_mods s2.1 iid)
    (compute_diff L R).to_update s2 hupnd hfound2 hwf2 hact2nd hexb2
  have h3res := apply_updates_fold_res iid (list_instance_mods s2.1 iid)
    (compute_diff L R).to_update s2
  have hfin2 : ((compute_diff L R).to_update.foldl
        (apply_updates_step iid (list_instance_mods s2.1 iid)) s2).2
      = { mods_added := (compute_diff L R).to_add.map (·.mod_name)
          mods_removed := (compute_diff L R).to_remove.map (·.mod_name)
          mods_updated := (compute_diff L R).to_update.map (·.mod_name)
          errors := [] } := by
    rw [h3res, h2b, h1b', hr0]
    simp
  rw [happ]
  refine ⟨?_, h3b, ?_, ?_, ?_, ?_⟩
  · rw [Multiset.coe_eq_coe]
    refine h3a.trans ?_
    rw [h2a]
    have hact1N : (list_instance_mods s1.1 iid).map (·.name)
        = ((list_instance_mods db iid).map (·.name)).filter
            (fun n => !decide (n ∈ (compute_diff L R).to_remove.map (·.mod_name))) := by
      rw [h1a', List.filter_map]
      rfl
    have hfilLeq : ((L.mods.map (·.mod_name)).filter
          (fun n => !decide (n ∈ (compute_diff L R).to_remove.map (·.mod_name))))
        = (L.mods.map (·.mod_name)).filter
            (fun n => decide (n ∈ R.mods.map (·.mod_name))) := by
      apply List.filter_congr
      intro n hnL
      by_cases hR : n ∈ R.mods.map (·.mod_name)
      · have hnotrem : n ∉ (compute_diff L R).to_remove.map (·.mod_name) := by
          rw [hdr]
          intro hmem
          obtain ⟨e, he, hen⟩ := List.mem_map.mp hmem
          have hrc := (List.mem_filter.mp he).2
          have htrue : idxContains R.mods e.mod_name = true := by
            refine (idxContains_iff R.mods e.mod_name).mpr ?_
            rw [hen]
            exact hR
          rw [htrue] at hrc
          exact absurd hrc (by simp)
        simp [hnotrem, hR]
      · have hinrem : n ∈ (compute_diff L R).to_remove.map (·.mod_name) := by
          rw [hdr]
          obtain ⟨e, heL, hen⟩ := List.mem_map.mp hnL
          refine List.mem_map.mpr ⟨e, List.mem_filter.mpr ⟨heL, ?_⟩, hen⟩
          have hf : idxContains R.mods e.mod_name = false := by
            cases hct : idxContains R.mods e.mod_name
            · rfl
            · refine absurd ((idxContains_iff R.mods e.mod_name).mp hct) ?_
              rw [hen]
              exact hR
          simp [hf]
        simp [hinrem, hR]
    have haddN : (compute_diff L R).to_add.map (·.mod_name)
        = (R.mods.map (·.mod_name)).filter
            (fun n => !decide (n ∈ L.mods.map (·.mod_name))) := by
      rw [hda, List.filter_map]
      congr 1
      apply List.filter_congr
      intro m _
      exact not_idxContains_eq L.mods m.mod_name
    have hpermLR : List.Perm
        ((L.mods.map (·.mod_name)).filter (fun n => decide (n ∈ R.mods.map (·.mod_name))))
        ((R.mods.map (·.mod_name)).filter (fun n => decide (n ∈ L.mods.map (·.mod_name)))) := by
      rw [List.perm_ext_iff_of_nodup (List.Nodup.filter _ hLnd) (List.Nodup.filter _ hRnd)]
      intro a
      simp only [List.mem_filter, decide_eq_true_eq]
      exact ⟨fun hx => ⟨hx.2, hx.1⟩, fun hx => ⟨hx.2, hx.1⟩⟩
    have hsplitR : List.Perm
        ((R.mods.map (·.mod_name)).filter (fun n => decide (n ∈ L.mods.map (·.mod_name)))
          ++ (R.mods.map (·.mod_name)).filter (fun n => !decide (n ∈ L.mods.map (·.mod_name))))
        (R.mods.map (·.mod_name)) := List.filter_append_perm _ _
    have hA1 : List.Perm ((list_instance_mods s1.1 iid).map (·.name))
        ((R.mods.map (·.mod_name)).filter (fun n => decide (n ∈ L.mods.map (·.mod_name)))) := by
      rw [hact1N]
      refine List.Perm.trans (hperm0.filter _) ?_
      rw [hfilLeq]
      exact hpermLR
    rw [haddN]
    exact (hA1.append (List.Perm.refl _)).trans hsplitR
  · rw [hfin2]
  · rw [hfin2]
  · rw [hfin2]
  · rw [hfin2]

def c5m0 : ModInfo :=
  { id := 0, instance_id := "inst", name := "x", slug := none, version := "1.0.0",
    file_name := "x-1.jar", file_hash := none, source := .modrinth,
    source_project_id := none, source_version_id := none, is_active := true }

def c5m1 : ModInfo :=
  { c5m0 with id := 1, version := "2.0.0", file_name := "x-2.jar" }

def c5db : Catalog :=
  { instances := [], mods := [c5m0, c5m1], nextModId := 2 }

def c5L : SyncManifest :=
  { id := "L", name := "Local", instance_id := "inst",
    minecraft_version := "1.21.1", loader_type := some "fabric",
    loader_version := some "0.16.0",
    mods := [mkEntry "x" "1.0.0", mkEntry "x" "2.0.0"], manifest_version := 1 }

def c5R : SyncManifest :=
  { c5L with
    id := "R"
    name := "Remote"
    mods := [] }

/-- C5 counterexample: with duplicate `mod_name`s the claim fails.  The store
holds two active records named "x" (name-equal to L's mods), remote is empty,
but the `HashMap` index collapses L's duplicates so `to_remove` has a single
entry, and its removal pass soft-removes only the one record the name lookup
finds — the final active list still contains an "x" and is not name-equal to
R. -/
theorem apply_diff_breaks_on_duplicate_names :
    ((((list_instance_mods c5db "inst").map (·.name) : List String) : Multiset String)
      = ((c5L.mods.map (·.mod_name) : List String) : Multiset String)) ∧
    ((((list_instance_mods (apply_diff c5db "inst" (compute_diff c5L c5R)).1 "inst").map
        (·.name) : List String) : Multiset String)
      ≠ ((c5R.mods.map (·.mod_name) : List String) : Multiset String)) := by
  constructor
  · rfl
  · decide

def c5wSodium : ModInfo :=
  { id := 0, instance_id := "inst", name := "sodium", slug := none,
    version := "0.5.7", file_name := "sodium-0.5.7.jar", file_hash := none,
    source := .modrinth, source_project_id := none, source_version_id := none,
    is_active := true }

def c5wIris : ModInfo :=
  { c5wSodium with id := 1, name := "iris", version := "1.6.0", file_name := "iris-1.6.0.jar" }

def c5wOld : ModInfo :=
  { c5wSodium with id := 2, name := "old", version := "1.0.0", file_name := "old-1.0.0.jar" }

def c5wdb : Catalog :=
  { instances := [], mods := [c5wSodium, c5wIris, c5wOld], nextModId := 3 }

def c5wL : SyncManifest :=
  { id := "L", name := "Local", instance_id := "inst",
    minecraft_version := "1.21.1", loader_type := some "fabric",
    loader_version := some "0.16.0",
    mods := [mkEntry "sodium" "0.5.7", mkEntry "iris" "1.6.0", mkEntry "old" "1.0.0"],
    manifest_version := 1 }

def c5wR : SyncManifest :=
  { c5wL with
    id := "R"
    name := "Remote"
    mods := [mkEntry "sodium" "0.5.8", mkEntry "iris" "1.6.0", mkEntry "lithium" "0.12.0"] }

/-- C5 witness: the amended apply-determinism theorem at a concrete store and
manifest pair (local sodium/iris/old, remote sodium/iris/lithium with a
sodium version bump), hypotheses discharged by evaluation. -/
theorem apply_diff_determinism_witness :
    c5wdb.WF ∧
    ((c5wL.mods.map (·.mod_name)).Nodup) ∧
    ((c5wR.mods.map (·.mod_name)).Nodup) ∧
    ((((list_instance_mods c5wdb "inst").map (·.name) : List String) : Multiset String)
      = ((c5wL.mods.map (·.mod_name) : List String) : Multiset String)) ∧
    (((((list_instance_mods (apply_diff c5wdb "inst" (compute_diff c5wL c5wR)).1 "inst").map
          (·.name) : List String) : Multiset String)
        = ((c5wR.mods.map (·.mod_name) : List String) : Multiset String)) ∧
      (∀ u ∈ (compute_diff c5wL c5wR).to_update,
        ∃ r ∈ list_instance_mods (apply_diff c5wdb "inst" (compute_diff c5wL c5wR)).1 "inst",
          r.name = u.mod_name ∧ r.version = u.remote_version ∧
          r.file_name = u.remote_file_name ∧ r.file_hash = u.remote_hash) ∧
      (apply_diff c5wdb "inst" (compute_diff c5wL c5wR)).2.mods_added
        = (compute_diff c5wL c5wR).to_add.map (·.mod_name) ∧
      (apply_diff c5wdb "inst" (compute_diff c5wL c5wR)).2.mods_removed
        = (compute_diff c5wL c5wR).to_remove.map (·.mod_name) ∧
      (apply_diff c5wdb "inst" (compute_diff c5wL c5wR)).2.mods_updated
        = (compute_diff c5wL c5wR).to_update.map (·.mod_name) ∧
      (apply_diff c5wdb "inst" (compute_diff c5wL c5wR)).2.errors = []) :=
  ⟨⟨by decide, by decide⟩, by decide, by decide, rfl,
    apply_diff_determinism c5wdb "inst" c5wL c5wR ⟨by decide, by decide⟩
      (by decide) (by decide) rfl⟩

-- ## Claim C10 witness data

def c10db : Catalog :=
  { instances := [], mods := [], nextModId := 0 }

def c10upd : ModUpdate :=
  { mod_name := "ghost", local_version := "1.0.0", remote_version := "2.0.0",
    source := "modrinth", source_project_id := some "p", source_version_id := some "v",
    remote_file_name := "ghost-2.0.0.jar", remote_hash := some "abc123" }

def c10res : ApplyResult :=
  { mods_added := [], mods_removed := [], mods_updated := [], errors := [] }

/-- C10 witness: the missing-local update theorem at an empty store and a
single update entry, hypotheses discharged by evaluation. -/
theorem apply_updates_missing_local_is_add_witness :
    c10db.WF ∧ c10upd ∈ [c10upd] ∧
    (∀ m ∈ list_instance_mods c10db "inst", m.name ≠ c10upd.mod_name) ∧
    ((apply_updates c10db "inst" [c10upd] c10res).2.errors = c10res.errors ∧
      c10upd.mod_name ∈ (apply_updates c10db "inst" [c10upd] c10res).2.mods_updated ∧
      (∃ r ∈ (apply_updates c10db "inst" [c10upd] c10res).1.mods,
        r.instance_id = "inst" ∧ r.is_active = true ∧ r.name = c10upd.mod_name ∧
        r.version = c10upd.remote_version ∧ r.file_name = c10upd.remote_file_name ∧
        r.file_hash = c10upd.remote_hash) ∧
      (∀ m ∈ c10db.mods, m.name = c10upd.mod_name →
        m ∈ (apply_updates c10db "inst" [c10upd] c10res).1.mods)) :=
  ⟨⟨by decide, by decide⟩, by decide, by decide,
    apply_updates_missing_local_is_add c10db "inst" [c10upd] c10res c10upd
      ⟨by decide, by decide⟩ (by decide) (by decide)⟩

-- ## Install-single-mod (`services/install.rs`)

/-- A downloadable file of a resolved mod version (the version-file shape
`install_mod` reads: `sha1` models `file.hashes.get("sha1")`). -/
structure ModVersionFile where
  url : String
  filename : String
  sha1 : Option String
  size : Nat
  primary : Bool
deriving DecidableEq, Repr

/-- A mod version as returned by `UnifiedModClient::get_versions`, restricted
to the fields `install_mod` reads. -/
structure ModVersionInfo where
  id : String
  name : String
  version_number : String
  files : List ModVersionFile
deriving DecidableEq, Repr

/-- `install_mod` (install.rs:47-120): validate the instance, resolve the
requested version from the client's version list (`versions` is the awaited
`get_versions` result), pick the primary file or else the first, run
`download_all` on the single task (propagating its returned error via `?`),
then insert the `ModRecord` and return it.  The middle component is the
download run's final state (`none` when the flow exits before the download).
The install-guard, progress updates and wall clock are dropped. -/
def install_mod (env : DlEnv) (fs : FileSystem) (db : Catalog)
    (versions : Except AppError (List ModVersionInfo))
    (instance_id : String) (source : ModSource)
    (project_id version_id : String) :
    Catalog × Option DlState × Except AppError ModInfo :=
  match get_instance db instance_id with
  | none => (db, none, .error (.custom ("Instance not found: " ++ instance_id)))
  | some inst =>
    match versions with
    | .error e => (db, none, .error e)
    | .ok vs =>
      match vs.find? (fun v => v.id == version_id) with
      | none => (db, none, .error (.custom ("Version not found: " ++ version_id)))
      | some version =>
        match (version.files.find? (fun f => f.primary)).orElse
            (fun _ => version.files.head?) with
        | none => (db, none, .error (.custom "No files in version"))
        | some file =>
          let task : DownloadTask :=
            { url := file.url
              dest := inst.instance_path ++ "/mods/" ++ file.filename
              sha1 := file.sha1
              size := file.size }
          match download_all env fs [task] with
          | (s1, .error e) => (db, some s1, .error e)
          | (s1, .ok _) =>
            let mod_info : ModInfo :=
              { id := db.nextModId
                instance_id := inst.id
                name := version.name
                slug := none
                version := version.version_number
                file_name := file.filename
                file_hash := file.sha1
                source := source
                source_project_id := some project_id
                source_version_id := some version_id
                is_active := true }
            (add_mod_to_instance db mod_info, some s1, .ok mod_info)

def c2Env : DlEnv :=
  { hash := fun _ => "h", net := fun _ => .error (.network "connection refused") }

def c2File : ModVersionFile :=
  { url := "https://cdn.example.com/sodium.jar", filename := "sodium.jar",
    sha1 := none, size := 10, primary := true }

def c2Version : ModVersionInfo :=
  { id := "v1", name := "Sodium", version_number := "0.5.8", files := [c2File] }

def c2Inst : MinecraftInstance :=
  { id := "inst", name := "Main", minecraft_version := "1.21.1",
    instance_path := "/mc/inst", is_active := true }

def c2Db : Catalog :=
  { instances := [c2Inst], mods := [], nextModId := 0 }

def c2Record : ModInfo :=
  { id := 0, instance_id := "inst", name := "Sodium", slug := none,
    version := "0.5.8", file_name := "sodium.jar", file_hash := none,
    source := .modrinth, source_project_id := some "proj",
    source_version_id := some "v1", is_active := true }

/-- C2: the install-single-mod flow does NOT abort without catalog mutation on
a download failure.  With a network oracle failing every GET, the single
task's download fails all `MAX_RETRIES` attempts, leaving `failed_files` =
[url] and progress state `failed("1 files failed")` — but `download_all`
still returns `Ok` (worker errors are only logged, download.rs:118-124,138),
so the `?` in install.rs:96 never fires for per-file failures: `install_mod`
proceeds to insert the `ModRecord` and returns it as `Ok`, mutating the
catalog. -/
theorem install_mod_records_despite_download_failure :
    (install_mod c2Env [] c2Db (.ok [c2Version]) "inst" .modrinth "proj" "v1").2.2
      = .ok c2Record ∧
    (install_mod c2Env [] c2Db (.ok [c2Version]) "inst" .modrinth "proj" "v1").1.mods
      = [c2Record] ∧
    ((install_mod c2Env [] c2Db (.ok [c2Version]) "inst" .modrinth "proj" "v1").2.1.map
        (fun s => s.prog.failed_files)) = some [c2File.url] ∧
    ((install_mod c2Env [] c2Db (.ok [c2Version]) "inst" .modrinth "proj" "v1").2.1.map
        (fun s => s.prog.state)) = some (.failed "1 files failed") :=
  ⟨rfl, rfl, rfl, rfl⟩

end MineSync
